import Mathlib

/-!
Shallow embedding of `generational-arena-dom` (src/src/lib.rs): an arena DOM
backing an HTML tree builder.  Node records live in an arena and are addressed
by handles; the `TreeSink` methods of `GenerationalArenaDom` are embedded as
pure functions on a `Dom` state.  Rust panics are modelled as `Except.error`
values (`InvalidHandle`, `NotAnElement`, `NotATemplate`, `NoParent`).

The arena itself is the `generational_indextree` crate, which is not under
src/; its node-linkage operations (`detach`, `append`, `insert_before`) are
modelled from the spec, section 4.2 (Tree Topology Operations).  Since no
operation of this component ever frees an arena slot, the generation counter
of a handle can never mismatch and a handle is modelled as a plain index.
-/

namespace GAD

/-- A qualified name: namespace plus local name. -/
structure QualName where
  ns : String
  localName : String
deriving DecidableEq, Repr

/-- An attribute: qualified name and value (markup5ever `Attribute`). -/
structure Attribute where
  name : QualName
  value : String
deriving DecidableEq, Repr

/-- A handle into the arena.  The source uses a generational `NodeId`; no
operation in the component ever frees a slot, so the generation is constant
and the handle is modelled as the slot index. -/
abbrev Handle := Nat

/-- `NodeData` from lib.rs: the tagged payload of a node. -/
inductive NodeData : Type where
  | document : NodeData
  | doctype (name publicId systemId : String) : NodeData
  | text (contents : String) : NodeData
  | comment (contents : String) : NodeData
  | element (name : QualName) (attrs : List Attribute)
      (templateContents : Option Handle) (mathmlAIP : Bool) : NodeData
  | processingInstruction (target contents : String) : NodeData
deriving DecidableEq, Repr

/-- An arena node record: payload plus parent/sibling/child linkage
(the node record of `generational_indextree`). -/
structure Node where
  parent : Option Handle
  prevSibling : Option Handle
  nextSibling : Option Handle
  firstChild : Option Handle
  lastChild : Option Handle
  data : NodeData
deriving DecidableEq, Repr

/-- The arena: a growable slot array of node records. -/
abbrev Arena := List Node

/-- `arena.get(h)`: fetch a node record by handle. -/
def aget (a : Arena) (h : Handle) : Option Node := a[h]?

/-- Overwrite the record at a handle (no-op when out of range). -/
def aset (a : Arena) (h : Handle) (n : Node) : Arena := a.set h n

/-- Mutate the record at a handle in place (no-op when out of range). -/
def amodify (a : Arena) (h : Handle) (f : Node → Node) : Arena :=
  match aget a h with
  | some n => aset a h (f n)
  | none => a

/-- A freshly allocated node record: payload with all links empty. -/
def mkNode (nd : NodeData) : Node :=
  { parent := none, prevSibling := none, nextSibling := none,
    firstChild := none, lastChild := none, data := nd }

/-- `arena.new_node(data)`: allocate a fresh node, returning the new arena and
the new handle (the old length: slots are never freed, so allocation appends). -/
def alloc (a : Arena) (nd : NodeData) : Arena × Handle :=
  (a ++ [mkNode nd], a.length)

/-- Failure modes of the component (Rust panics, named as in the spec). -/
inductive DomError : Type where
  | invalidHandle
  | notAnElement
  | notATemplate
  | noParent
deriving DecidableEq, Repr

/-- Modelled from the spec: section 4.2 `detach(node)` of the arena crate
(not under src/) — "removes `node` from its parent's child list and clears
its parent/sibling links"; the subtree below `node` is untouched. -/
def detach (a : Arena) (n : Handle) : Arena :=
  match aget a n with
  | none => a
  | some nd =>
    let a1 :=
      match nd.prevSibling with
      | some pr => amodify a pr (fun x => { x with nextSibling := nd.nextSibling })
      | none =>
        match nd.parent with
        | some p => amodify a p (fun x => { x with firstChild := nd.nextSibling })
        | none => a
    let a2 :=
      match nd.nextSibling with
      | some nx => amodify a1 nx (fun x => { x with prevSibling := nd.prevSibling })
      | none =>
        match nd.parent with
        | some p => amodify a1 p (fun x => { x with lastChild := nd.prevSibling })
        | none => a1
    amodify a2 n (fun x => { x with parent := none, prevSibling := none, nextSibling := none })

/-- Modelled from the spec: section 4.2 `append_child(parent, child)` of the
arena crate (not under src/) — "detaches `child` from any existing position
first, then links it as the new last child of `parent`". -/
def append_child (a : Arena) (p c : Handle) : Arena :=
  let a1 := detach a c
  match aget a1 p with
  | none => a1
  | some pn =>
    match pn.lastChild with
    | some l =>
      let a2 := amodify a1 l (fun x => { x with nextSibling := some c })
      let a3 := amodify a2 c (fun x => { x with parent := some p, prevSibling := some l })
      amodify a3 p (fun x => { x with lastChild := some c })
    | none =>
      let a2 := amodify a1 c (fun x => { x with parent := some p })
      amodify a2 p (fun x => { x with firstChild := some c, lastChild := some c })

/-- Modelled from the spec: section 4.2 `insert_before(sibling, new_node)` of
the arena crate (not under src/) — "detaches `new_node` if attached, then
splices it immediately before `sibling` in `sibling`'s parent's child list.
Fails with `NoParent` if `sibling` has no parent". -/
def insert_before (a : Arena) (s m : Handle) : Except DomError Arena :=
  let a1 := detach a m
  match aget a1 s with
  | none => Except.error DomError.invalidHandle
  | some sn =>
    match sn.parent with
    | none => Except.error DomError.noParent
    | some p =>
      let a2 := amodify a1 m
        (fun x => { x with parent := some p, prevSibling := sn.prevSibling, nextSibling := some s })
      let a3 := amodify a2 s (fun x => { x with prevSibling := some m })
      match sn.prevSibling with
      | some pr => Except.ok (amodify a3 pr (fun x => { x with nextSibling := some m }))
      | none => Except.ok (amodify a3 p (fun x => { x with firstChild := some m }))

/-- The document quirks mode (markup5ever `QuirksMode`). -/
inductive QuirksMode : Type where
  | quirks
  | limitedQuirks
  | noQuirks
deriving DecidableEq, Repr

/-- `GenerationalArenaDom`: the arena, the root document handle, the error
log and the quirks mode. -/
structure Dom : Type where
  arena : Arena
  document : Handle
  errors : List String
  quirksMode : QuirksMode
deriving DecidableEq, Repr

/-- `GenerationalArenaDom::default()`: a fresh container whose arena holds
only the root Document node. -/
def mkDom : Dom :=
  let p := alloc [] NodeData.document
  { arena := p.1, document := p.2, errors := [], quirksMode := QuirksMode.noQuirks }

/-- `NodeOrText` from markup5ever: an append argument is either literal text
or an existing node handle. -/
inductive NodeOrText : Type where
  | appendText (t : String)
  | appendNode (h : Handle)
deriving DecidableEq, Repr

/-- `ElementFlags` from markup5ever (the two fields lib.rs reads). -/
structure ElementFlags where
  template : Bool
  mathmlAIP : Bool
deriving DecidableEq, Repr

/-- `GenerationalArenaDom::get_node`: fetch a payload, panicking
(`InvalidHandle`) on a bad handle. -/
def get_node (d : Dom) (target : Handle) : Except DomError NodeData :=
  match aget d.arena target with
  | some n => Except.ok n.data
  | none => Except.error DomError.invalidHandle

/-- `GenerationalArenaDom::preceding_node`: the previous sibling of `target`,
panicking (`InvalidHandle`) on a bad handle. -/
def preceding_node (d : Dom) (target : Handle) : Except DomError (Option Handle) :=
  match aget d.arena target with
  | some n => Except.ok n.prevSibling
  | none => Except.error DomError.invalidHandle

/-- `append_to_existing_text` from lib.rs: if `prev` is a Text node, push
`text` onto its buffer and report `true`; otherwise report `false`. -/
def append_to_existing_text (a : Arena) (prev : Handle) (text : String) :
    Except DomError (Arena × Bool) :=
  match aget a prev with
  | some prevNode =>
    match prevNode.data with
    | NodeData.text s =>
      Except.ok (amodify a prev (fun x => { x with data := NodeData.text (s ++ text) }), true)
    | _ => Except.ok (a, false)
  | none => Except.error DomError.invalidHandle

/-- `TreeSink::get_document`. -/
def get_document (d : Dom) : Handle := d.document

/-- `TreeSink::parse_error`: push a diagnostic message. -/
def parse_error (d : Dom) (msg : String) : Dom := { d with errors := d.errors ++ [msg] }

/-- `TreeSink::elem_name`: the qualified name of an Element, `NotAnElement`
otherwise. -/
def elem_name (d : Dom) (target : Handle) : Except DomError QualName :=
  match get_node d target with
  | Except.ok (NodeData.element name _ _ _) => Except.ok name
  | Except.ok _ => Except.error DomError.notAnElement
  | Except.error e => Except.error e

/-- `TreeSink::create_element`: when the template flag is set, first allocate
an isolated Document-kind node as the template contents, then allocate the
element recording it; returns the element handle, attached nowhere. -/
def create_element (d : Dom) (name : QualName) (attrs : List Attribute)
    (flags : ElementFlags) : Dom × Handle :=
  let ti : Arena × Option Handle :=
    if flags.template then
      let p := alloc d.arena NodeData.document
      (p.1, some p.2)
    else (d.arena, none)
  let p2 := alloc ti.1 (NodeData.element name attrs ti.2 flags.mathmlAIP)
  ({ d with arena := p2.1 }, p2.2)

/-- `TreeSink::create_comment`: allocate a Comment node, attached nowhere. -/
def create_comment (d : Dom) (text : String) : Dom × Handle :=
  let p := alloc d.arena (NodeData.comment text)
  ({ d with arena := p.1 }, p.2)

/-- `TreeSink::create_pi`: allocate a ProcessingInstruction node, attached
nowhere. -/
def create_pi (d : Dom) (target data : String) : Dom × Handle :=
  let p := alloc d.arena (NodeData.processingInstruction target data)
  ({ d with arena := p.1 }, p.2)

/-- `TreeSink::append` from lib.rs: literal text is merged into `parent`'s
last child when that child is a Text node; otherwise a new Text node (for
text) or the given handle (for a node) is appended as the new last child. -/
def append (d : Dom) (parent : Handle) (child : NodeOrText) : Except DomError Dom :=
  match aget d.arena parent with
  | none => Except.error DomError.invalidHandle
  | some parentNode =>
    match child with
    | NodeOrText.appendText text =>
      match parentNode.lastChild with
      | some h =>
        match append_to_existing_text d.arena h text with
        | Except.error e => Except.error e
        | Except.ok (a, true) => Except.ok { d with arena := a }
        | Except.ok (_, false) =>
          let p := alloc d.arena (NodeData.text text)
          Except.ok { d with arena := append_child p.1 parent p.2 }
      | none =>
        let p := alloc d.arena (NodeData.text text)
        Except.ok { d with arena := append_child p.1 parent p.2 }
    | NodeOrText.appendNode node =>
      Except.ok { d with arena := append_child d.arena parent node }

/-- `TreeSink::append_before_sibling` from lib.rs: literal text is merged
into the node immediately preceding `sibling` when that node is a Text node;
otherwise a new Text node (for text) or the given handle (for a node) is
spliced immediately before `sibling`. -/
def append_before_sibling (d : Dom) (sibling : Handle) (child : NodeOrText) :
    Except DomError Dom :=
  match aget d.arena sibling with
  | none => Except.error DomError.invalidHandle
  | some sibNode =>
    match child, sibNode.prevSibling with
    | NodeOrText.appendText text, none =>
      let p := alloc d.arena (NodeData.text text)
      (insert_before p.1 sibling p.2).map (fun a => { d with arena := a })
    | NodeOrText.appendText text, some prev =>
      match append_to_existing_text d.arena prev text with
      | Except.error e => Except.error e
      | Except.ok (a, true) => Except.ok { d with arena := a }
      | Except.ok (_, false) =>
        let p := alloc d.arena (NodeData.text text)
        (insert_before p.1 sibling p.2).map (fun a => { d with arena := a })
    | NodeOrText.appendNode node, _ =>
      (insert_before d.arena sibling node).map (fun a => { d with arena := a })

/-- `TreeSink::append_based_on_parent_node` from lib.rs: insert before
`element` when it has a parent, else append to `prevElement`. -/
def append_based_on_parent_node (d : Dom) (element prevElement : Handle)
    (child : NodeOrText) : Except DomError Dom :=
  match aget d.arena element with
  | none => Except.error DomError.invalidHandle
  | some elementNode =>
    if elementNode.parent.isSome then append_before_sibling d element child
    else append d prevElement child

/-- `TreeSink::append_doctype_to_document` from lib.rs: allocate a Doctype
node and append it as the last child of the root document. -/
def append_doctype_to_document (d : Dom) (name publicId systemId : String) : Dom :=
  let p := alloc d.arena (NodeData.doctype name publicId systemId)
  { d with arena := append_child p.1 d.document p.2 }

/-- `TreeSink::get_template_contents` from lib.rs: the recorded template
contents handle of an Element; `NotATemplate` when `target` is not an element
or has none recorded. -/
def get_template_contents (d : Dom) (target : Handle) : Except DomError Handle :=
  match get_node d target with
  | Except.ok (NodeData.element _ _ (some h) _) => Except.ok h
  | Except.ok (NodeData.element _ _ none _) => Except.error DomError.notATemplate
  | Except.ok _ => Except.error DomError.notATemplate
  | Except.error e => Except.error e

/-- `TreeSink::same_node`: handle equality. -/
def same_node (x y : Handle) : Bool := x == y

/-- `TreeSink::set_quirks_mode`. -/
def set_quirks_mode (d : Dom) (mode : QuirksMode) : Dom := { d with quirksMode := mode }

/-- `TreeSink::add_attrs_if_missing` from lib.rs: on an Element, extend the
attribute list with exactly the incoming attributes whose qualified name is
absent from the pre-existing names (the Rust `HashSet` of existing names is
modelled as list membership); `NotAnElement` otherwise. -/
def add_attrs_if_missing (d : Dom) (target : Handle) (attrs : List Attribute) :
    Except DomError Dom :=
  match aget d.arena target with
  | none => Except.error DomError.invalidHandle
  | some n =>
    match n.data with
    | NodeData.element name existing tc mp =>
      let existingNames := existing.map (fun e => e.name)
      let merged := existing ++ attrs.filter (fun attr => decide (attr.name ∉ existingNames))
      Except.ok { d with arena := aset d.arena target { n with data := NodeData.element name merged tc mp } }
    | _ => Except.error DomError.notAnElement

/-- `TreeSink::remove_from_parent`: detach `target`. -/
def remove_from_parent (d : Dom) (target : Handle) : Dom :=
  { d with arena := detach d.arena target }

/-- The loop body of `TreeSink::reparent_children` from lib.rs, with explicit
fuel (the Rust `while let`): detach the current child, append it to the new
parent, then read the child's NEXT-SIBLING pointer — after the move — to find
the next child to transfer. -/
def reparent_loop : Arena → Handle → Option Handle → Nat → Arena
  | a, _, none, _ => a
  | a, _, some _, 0 => a
  | a, newParent, some child, Nat.succ fuel =>
    let a1 := detach a child
    let a2 := append_child a1 newParent child
    let next := (aget a2 child).bind Node.nextSibling
    reparent_loop a2 newParent next fuel

/-- `TreeSink::reparent_children` from lib.rs: run the transfer loop starting
from `node`'s first child.  One slot of fuel per arena node plus one is
enough for any run the Rust loop could make. -/
def reparent_children (d : Dom) (node newParent : Handle) : Dom :=
  let first := (aget d.arena node).bind Node.firstChild
  { d with arena := reparent_loop d.arena newParent first (d.arena.length + 1) }

/-- `TreeSink::is_mathml_annotation_xml_integration_point`: the fixed flag of
an Element, `NotAnElement` otherwise. -/
def is_mathml_aip (d : Dom) (target : Handle) : Except DomError Bool :=
  match get_node d target with
  | Except.ok (NodeData.element _ _ _ b) => Except.ok b
  | Except.ok _ => Except.error DomError.notAnElement
  | Except.error e => Except.error e

/-- `TreeSink::finish`: returns the container unchanged. -/
def finish (d : Dom) : Dom := d

/-! ### Observers and invariant predicates -/

/-- Whether a payload is a Text node. -/
def isTextData : NodeData → Bool
  | NodeData.text _ => true
  | _ => false

/-- Whether a payload is an Element node. -/
def isElementData : NodeData → Bool
  | NodeData.element _ _ _ _ => true
  | _ => false

/-- The recorded template-contents handle of a payload (none for
non-elements and for elements without one). -/
def templateContentsOf : NodeData → Option Handle
  | NodeData.element _ _ tc _ => tc
  | _ => none

/-- The attribute list of an element payload (empty for non-elements). -/
def attrsOf : NodeData → List Attribute
  | NodeData.element _ attrs _ _ => attrs
  | _ => []

/-- The next-sibling pointer stored at a handle. -/
def nextOf (a : Arena) (i : Handle) : Option Handle :=
  match aget a i with
  | some n => n.nextSibling
  | none => none

/-- Whether the node stored at a handle is a Text node. -/
def textAt (a : Arena) (i : Handle) : Bool :=
  match aget a i with
  | some n => isTextData n.data
  | none => false

/-- The coalescing invariant: no two adjacent siblings are both Text nodes. -/
def noAdjacentText (a : Arena) : Prop :=
  ∀ i j, nextOf a i = some j → textAt a i = true → textAt a j = true → False

/-- A concrete witness of two adjacent Text siblings at handle `i`. -/
def adjTextPairAt (a : Arena) (i : Handle) : Bool :=
  match aget a i with
  | some n =>
    isTextData n.data &&
      (match n.nextSibling with
       | some j => textAt a j
       | none => false)
  | none => false

/-- A link is in range when present. -/
def linkOk (len : Nat) : Option Handle → Bool
  | none => true
  | some h => decide (h < len)

/-- All five structural links of a record are in range. -/
def nodeWF (len : Nat) (n : Node) : Bool :=
  linkOk len n.parent && linkOk len n.prevSibling && linkOk len n.nextSibling &&
    linkOk len n.firstChild && linkOk len n.lastChild

/-- Arena well-formedness, Bool form (decidable on concrete arenas). -/
def arenaWF (a : Arena) : Bool := a.all (nodeWF a.length)

/-- Arena well-formedness, handle-indexed form. -/
def WFP (a : Arena) : Prop := ∀ i n, aget a i = some n → nodeWF a.length n = true

/-- A node is fully detached: no parent and no sibling links. -/
def fullyDetached (n : Node) : Prop :=
  n.parent = none ∧ n.prevSibling = none ∧ n.nextSibling = none

/-- The inductive invariant used for the coalescing claim: links in range
and no adjacent Text siblings. -/
def Inv (a : Arena) : Prop := WFP a ∧ noAdjacentText a

/-- Reachability along the traversal links (first-child / next-sibling),
the child traversal of the produced interface. -/
inductive Reaches (a : Arena) : Handle → Handle → Prop where
  | refl (h : Handle) : Reaches a h h
  | child {i j k : Handle} {n : Node} : Reaches a i j → aget a j = some n →
      n.firstChild = some k → Reaches a i k
  | sibling {i j k : Handle} {n : Node} : Reaches a i j → aget a j = some n →
      n.nextSibling = some k → Reaches a i k

/-! ### Arena lemma kit -/

theorem aget_lt {a : Arena} {h : Handle} {n : Node} (H : aget a h = some n) :
    h < a.length := by
  rcases List.getElem?_eq_some_iff.mp H with ⟨hlt, _⟩
  exact hlt

theorem length_aset (a : Arena) (h : Handle) (n : Node) :
    (aset a h n).length = a.length := List.length_set a h n

theorem aget_aset {a : Arena} {h : Handle} {n : Node} (hlt : h < a.length) (i : Handle) :
    aget (aset a h n) i = if i = h then some n else aget a i := by
  by_cases hih : i = h
  · subst hih
    simp [aget, aset, List.getElem?_set_self hlt]
  · simp [aget, aset, List.getElem?_set_ne (fun hh => hih hh.symm), hih]

theorem length_amodify (a : Arena) (h : Handle) (f : Node → Node) :
    (amodify a h f).length = a.length := by
  unfold amodify
  cases aget a h with
  | some n => exact length_aset a h (f n)
  | none => rfl

theorem amodify_eq_aset {a : Arena} {h : Handle} {n : Node} (H : aget a h = some n)
    (f : Node → Node) : amodify a h f = aset a h (f n) := by
  unfold amodify
  rw [H]

theorem amodify_of_none {a : Arena} {h : Handle} (H : aget a h = none)
    (f : Node → Node) : amodify a h f = a := by
  unfold amodify
  rw [H]

theorem aget_amodify {a : Arena} {h : Handle} {n : Node} (H : aget a h = some n)
    (f : Node → Node) (i : Handle) :
    aget (amodify a h f) i = if i = h then some (f n) else aget a i := by
  rw [amodify_eq_aset H f]
  exact aget_aset (aget_lt H) i

theorem aset_same {a : Arena} {h : Handle} {n : Node} (H : aget a h = some n) :
    aset a h n = a := by
  apply List.ext_getElem?
  intro i
  have := @aget_aset a h n (aget_lt H) i
  simp only [aget] at this H
  rw [this]
  by_cases hih : i = h
  · subst hih
    simp [H]
  · simp [hih]

theorem aget_append_lt {a : Arena} {l : List Node} {i : Handle} (hlt : i < a.length) :
    aget (a ++ l) i = aget a i := by
  simp [aget, List.getElem?_append_left hlt]

theorem aget_append_len (a : Arena) (x : Node) : aget (a ++ [x]) a.length = some x := by
  simp [aget, List.getElem?_concat_length]

theorem length_alloc (a : Arena) (nd : NodeData) : (alloc a nd).1.length = a.length + 1 := by
  simp [alloc]

theorem aget_alloc_old {a : Arena} {i : Handle} (nd : NodeData) (hlt : i < a.length) :
    aget (alloc a nd).1 i = aget a i := aget_append_lt hlt

theorem aget_alloc_new (a : Arena) (nd : NodeData) :
    aget (alloc a nd).1 a.length = some (mkNode nd) := aget_append_len a (mkNode nd)

theorem aget_isSome {a : Arena} {i : Handle} (hlt : i < a.length) :
    ∃ n, aget a i = some n := by
  refine ⟨a[i], ?_⟩
  simp [aget, List.getElem?_eq_getElem hlt]

/-! ### Pointwise observer lemmas -/

/-- The payload stored at a handle. -/
def dataAt (a : Arena) (i : Handle) : Option NodeData := (aget a i).map Node.data

theorem dataAt_amodify {a : Arena} {h : Handle} (f : Node → Node)
    (hf : ∀ n, (f n).data = n.data) (i : Handle) :
    dataAt (amodify a h f) i = dataAt a i := by
  cases hah : aget a h with
  | none => rw [amodify_of_none hah]
  | some m =>
    unfold dataAt
    rw [aget_amodify hah]
    by_cases hih : i = h
    · simp [hih, hah, hf]
    · simp [hih]

theorem textAt_eq_of_dataAt {a b : Arena} (i : Handle)
    (H : dataAt b i = dataAt a i) : textAt b i = textAt a i := by
  unfold textAt
  unfold dataAt at H
  cases hb : aget b i <;> cases ha : aget a i <;> simp [hb, ha] at H ⊢
  · exact H ▸ rfl

theorem nextOf_amodify_keep {a : Arena} {h : Handle} (f : Node → Node)
    (hf : ∀ n, (f n).nextSibling = n.nextSibling) (i : Handle) :
    nextOf (amodify a h f) i = nextOf a i := by
  cases hah : aget a h with
  | none => rw [amodify_of_none hah]
  | some m =>
    unfold nextOf
    rw [aget_amodify hah]
    by_cases hih : i = h
    · simp [hih, hah, hf]
    · simp [hih]

theorem nextOf_amodify_ne {a : Arena} {h : Handle} (f : Node → Node) {i : Handle}
    (hih : i ≠ h) : nextOf (amodify a h f) i = nextOf a i := by
  cases hah : aget a h with
  | none => rw [amodify_of_none hah]
  | some m =>
    unfold nextOf
    rw [aget_amodify hah]
    simp [hih]

theorem nextOf_amodify_self {a : Arena} {h : Handle} {n : Node}
    (H : aget a h = some n) (f : Node → Node) :
    nextOf (amodify a h f) h = (f n).nextSibling := by
  unfold nextOf
  rw [aget_amodify H]
  simp

theorem aget_amodify_ne {a : Arena} {h : Handle} (f : Node → Node) {i : Handle}
    (hih : i ≠ h) : aget (amodify a h f) i = aget a i := by
  cases hah : aget a h with
  | none => rw [amodify_of_none hah]
  | some m =>
    rw [aget_amodify hah]
    simp [hih]

/-- The previous-sibling pointer stored at a handle. -/
def prevOf (a : Arena) (i : Handle) : Option Handle :=
  match aget a i with
  | some n => n.prevSibling
  | none => none

/-- The parent pointer stored at a handle. -/
def parentOf (a : Arena) (i : Handle) : Option Handle :=
  match aget a i with
  | some n => n.parent
  | none => none

theorem prevOf_amodify_keep {a : Arena} {h : Handle} (f : Node → Node)
    (hf : ∀ n, (f n).prevSibling = n.prevSibling) (i : Handle) :
    prevOf (amodify a h f) i = prevOf a i := by
  cases hah : aget a h with
  | none => rw [amodify_of_none hah]
  | some m =>
    unfold prevOf
    rw [aget_amodify hah]
    by_cases hih : i = h
    · simp [hih, hah, hf]
    · simp [hih]

theorem prevOf_amodify_self {a : Arena} {h : Handle} {n : Node}
    (H : aget a h = some n) (f : Node → Node) :
    prevOf (amodify a h f) h = (f n).prevSibling := by
  unfold prevOf
  rw [aget_amodify H]
  simp

theorem parentOf_amodify_keep {a : Arena} {h : Handle} (f : Node → Node)
    (hf : ∀ n, (f n).parent = n.parent) (i : Handle) :
    parentOf (amodify a h f) i = parentOf a i := by
  cases hah : aget a h with
  | none => rw [amodify_of_none hah]
  | some m =>
    unfold parentOf
    rw [aget_amodify hah]
    by_cases hih : i = h
    · simp [hih, hah, hf]
    · simp [hih]

theorem parentOf_amodify_self {a : Arena} {h : Handle} {n : Node}
    (H : aget a h = some n) (f : Node → Node) :
    parentOf (amodify a h f) h = (f n).parent := by
  unfold parentOf
  rw [aget_amodify H]
  simp

/-- The first-child pointer stored at a handle. -/
def firstOf (a : Arena) (i : Handle) : Option Handle :=
  match aget a i with
  | some n => n.firstChild
  | none => none

/-- The last-child pointer stored at a handle. -/
def lastOf (a : Arena) (i : Handle) : Option Handle :=
  match aget a i with
  | some n => n.lastChild
  | none => none

theorem firstOf_amodify_self {a : Arena} {h : Handle} {n : Node}
    (H : aget a h = some n) (f : Node → Node) :
    firstOf (amodify a h f) h = (f n).firstChild := by
  unfold firstOf
  rw [aget_amodify H]
  simp

theorem lastOf_amodify_self {a : Arena} {h : Handle} {n : Node}
    (H : aget a h = some n) (f : Node → Node) :
    lastOf (amodify a h f) h = (f n).lastChild := by
  unfold lastOf
  rw [aget_amodify H]
  simp

theorem lastOf_amodify_keep {a : Arena} {h : Handle} (f : Node → Node)
    (hf : ∀ n, (f n).lastChild = n.lastChild) (i : Handle) :
    lastOf (amodify a h f) i = lastOf a i := by
  cases hah : aget a h with
  | none => rw [amodify_of_none hah]
  | some m =>
    unfold lastOf
    rw [aget_amodify hah]
    by_cases hih : i = h
    · simp [hih, hah, hf]
    · simp [hih]

theorem prevOf_amodify_ne {a : Arena} {h : Handle} (f : Node → Node) {i : Handle}
    (hih : i ≠ h) : prevOf (amodify a h f) i = prevOf a i := by
  unfold prevOf
  rw [aget_amodify_ne f hih]

theorem parentOf_amodify_ne {a : Arena} {h : Handle} (f : Node → Node) {i : Handle}
    (hih : i ≠ h) : parentOf (amodify a h f) i = parentOf a i := by
  unfold parentOf
  rw [aget_amodify_ne f hih]

/-! ### Detach lemmas -/

theorem detach_unlinked {a : Arena} {c : Handle} {cn : Node} (hc : aget a c = some cn)
    (h1 : cn.parent = none) (h2 : cn.prevSibling = none) (h3 : cn.nextSibling = none) :
    detach a c = a := by
  have hcn : ({ cn with parent := none, prevSibling := none, nextSibling := none } : Node) = cn := by
    cases cn
    simp_all
  unfold detach
  rw [hc]
  simp only [h1, h2, h3]
  rw [amodify_eq_aset hc, hcn, aset_same hc]

theorem length_detach (a : Arena) (n : Handle) : (detach a n).length = a.length := by
  unfold detach
  cases h : aget a n with
  | none => rfl
  | some nd =>
    cases h1 : nd.prevSibling <;> cases h2 : nd.nextSibling <;> cases h3 : nd.parent <;>
      simp [h1, h2, h3, length_amodify]

theorem length_append_child (a : Arena) (p c : Handle) :
    (append_child a p c).length = a.length := by
  unfold append_child
  cases h : aget (detach a c) p with
  | none => simp [h, length_detach]
  | some pn =>
    cases h2 : pn.lastChild <;> simp [h, h2, length_amodify, length_detach]

theorem length_insert_before {a : Arena} {s m : Handle} {a2 : Arena}
    (H : insert_before a s m = Except.ok a2) : a2.length = a.length := by
  simp only [insert_before] at H
  split at H
  · cases H
  · split at H
    · cases H
    · split at H <;>
        (simp only [Except.ok.injEq] at H
         rw [← H]
         simp [length_amodify, length_detach])

theorem length_reparent_loop (a : Arena) (np : Handle) (cur : Option Handle) (fuel : Nat) :
    (reparent_loop a np cur fuel).length = a.length := by
  induction fuel generalizing a cur with
  | zero => cases cur <;> rfl
  | succ k ih =>
    cases cur with
    | none => rfl
    | some child =>
      unfold reparent_loop
      rw [ih]
      simp [length_append_child, length_detach]

/-! ### Well-formedness lemma kit -/

theorem linkOk_none (len : Nat) : linkOk len none = true := rfl

theorem linkOk_some_of_lt {len : Nat} {j : Handle} (h : j < len) :
    linkOk len (some j) = true := by simp [linkOk, h]

theorem linkOk_some {len : Nat} {j : Handle} (H : linkOk len (some j) = true) :
    j < len := by simpa [linkOk] using H

theorem nodeWF_parts {len : Nat} {n : Node} (H : nodeWF len n = true) :
    linkOk len n.parent = true ∧ linkOk len n.prevSibling = true ∧
      linkOk len n.nextSibling = true ∧ linkOk len n.firstChild = true ∧
      linkOk len n.lastChild = true := by
  simp only [nodeWF, Bool.and_eq_true] at H
  tauto

theorem nodeWF_build {len : Nat} {n : Node}
    (hp : linkOk len n.parent = true) (hpv : linkOk len n.prevSibling = true)
    (hnx : linkOk len n.nextSibling = true) (hfc : linkOk len n.firstChild = true)
    (hlc : linkOk len n.lastChild = true) : nodeWF len n = true := by
  simp [nodeWF, hp, hpv, hnx, hfc, hlc]

theorem linkOk_mono {len len2 : Nat} (h : len ≤ len2) {o : Option Handle}
    (H : linkOk len o = true) : linkOk len2 o = true := by
  cases o with
  | none => rfl
  | some j => exact linkOk_some_of_lt (Nat.lt_of_lt_of_le (linkOk_some H) h)

theorem nodeWF_mono {len len2 : Nat} (h : len ≤ len2) {n : Node}
    (H : nodeWF len n = true) : nodeWF len2 n = true := by
  obtain ⟨h1, h2, h3, h4, h5⟩ := nodeWF_parts H
  exact nodeWF_build (linkOk_mono h h1) (linkOk_mono h h2) (linkOk_mono h h3)
    (linkOk_mono h h4) (linkOk_mono h h5)

theorem WFP_amodify {a : Arena} {h : Handle} {f : Node → Node} (hWF : WFP a)
    (hf : ∀ n, nodeWF a.length n = true → nodeWF a.length (f n) = true) :
    WFP (amodify a h f) := by
  intro i n hi
  rw [length_amodify]
  cases hah : aget a h with
  | none =>
    rw [amodify_of_none hah] at hi
    exact hWF i n hi
  | some m =>
    rw [aget_amodify hah] at hi
    by_cases hih : i = h
    · rw [if_pos hih] at hi
      cases hi
      exact hf m (hWF h m hah)
    · rw [if_neg hih] at hi
      exact hWF i n hi

theorem WFP_alloc {a : Arena} (nd : NodeData) (hWF : WFP a) : WFP (alloc a nd).1 := by
  intro i n hi
  rw [length_alloc]
  have hlen : i < a.length + 1 := by
    have h0 := aget_lt hi
    rwa [length_alloc] at h0
  by_cases hil : i < a.length
  · rw [aget_alloc_old nd hil] at hi
    exact nodeWF_mono (Nat.le_succ _) (hWF i n hi)
  · have hie : i = a.length :=
      Nat.le_antisymm (Nat.lt_succ_iff.mp hlen) (Nat.le_of_not_lt hil)
    subst hie
    rw [aget_alloc_new] at hi
    cases hi
    exact nodeWF_build rfl rfl rfl rfl rfl

theorem aget_alloc_none {a : Arena} (nd : NodeData) {i : Handle}
    (h1 : i ≠ a.length) (h2 : ¬ i < a.length) : aget (alloc a nd).1 i = none := by
  unfold aget
  apply List.getElem?_eq_none
  rw [length_alloc]
  exact Nat.lt_of_le_of_ne (Nat.le_of_not_lt h2) (Ne.symm h1)

theorem nextOf_some_lt {a : Arena} {i j : Handle} (hWF : WFP a)
    (hn : nextOf a i = some j) : j < a.length := by
  unfold nextOf at hn
  cases hni : aget a i with
  | none => rw [hni] at hn; cases hn
  | some ni =>
    rw [hni] at hn
    have parts := nodeWF_parts (hWF i ni hni)
    exact linkOk_some (hn ▸ parts.2.2.1)

theorem noAdjacentText_alloc {a : Arena} (nd : NodeData) (hWF : WFP a)
    (hAdj : noAdjacentText a) : noAdjacentText (alloc a nd).1 := by
  intro i j hn ht1 ht2
  by_cases hil : i < a.length
  · have hn' : nextOf a i = some j := by
      unfold nextOf at hn ⊢
      rw [aget_alloc_old nd hil] at hn
      exact hn
    have hjl : j < a.length := nextOf_some_lt hWF hn'
    have ht1' : textAt a i = true := by
      unfold textAt at ht1 ⊢
      rw [aget_alloc_old nd hil] at ht1
      exact ht1
    have ht2' : textAt a j = true := by
      unfold textAt at ht2 ⊢
      rw [aget_alloc_old nd hjl] at ht2
      exact ht2
    exact hAdj i j hn' ht1' ht2'
  · unfold nextOf at hn
    by_cases hie : i = a.length
    · subst hie
      rw [aget_alloc_new] at hn
      simp [mkNode] at hn
    · rw [aget_alloc_none nd hie hil] at hn
      cases hn

theorem Inv_alloc {a : Arena} (nd : NodeData) (hInv : Inv a) : Inv (alloc a nd).1 :=
  ⟨WFP_alloc nd hInv.1, noAdjacentText_alloc nd hInv.1 hInv.2⟩

/-! ### Equation lemmas for the topology operations -/

theorem append_child_eq_dead {a : Arena} {p c : Handle}
    (hp : aget (detach a c) p = none) : append_child a p c = detach a c := by
  simp only [append_child, hp]

theorem append_child_eq_of_last {a : Arena} {p c : Handle} {pn : Node} {l : Handle}
    (hp : aget (detach a c) p = some pn) (hl : pn.lastChild = some l) :
    append_child a p c =
      amodify (amodify (amodify (detach a c) l (fun x => { x with nextSibling := some c }))
        c (fun x => { x with parent := some p, prevSibling := some l }))
        p (fun x => { x with lastChild := some c }) := by
  simp only [append_child, hp, hl]

theorem append_child_eq_of_no_last {a : Arena} {p c : Handle} {pn : Node}
    (hp : aget (detach a c) p = some pn) (hl : pn.lastChild = none) :
    append_child a p c =
      amodify (amodify (detach a c) c (fun x => { x with parent := some p }))
        p (fun x => { x with firstChild := some c, lastChild := some c }) := by
  simp only [append_child, hp, hl]

theorem insert_before_eq_of_prev {a : Arena} {s m : Handle} {sn : Node} {p pr : Handle}
    (hs : aget (detach a m) s = some sn) (hpar : sn.parent = some p)
    (hprev : sn.prevSibling = some pr) :
    insert_before a s m = Except.ok
      (amodify (amodify (amodify (detach a m) m
          (fun x => { x with parent := some p, prevSibling := sn.prevSibling, nextSibling := some s }))
        s (fun x => { x with prevSibling := some m }))
        pr (fun x => { x with nextSibling := some m })) := by
  simp only [insert_before, hs, hpar, hprev]

theorem insert_before_eq_of_no_prev {a : Arena} {s m : Handle} {sn : Node} {p : Handle}
    (hs : aget (detach a m) s = some sn) (hpar : sn.parent = some p)
    (hprev : sn.prevSibling = none) :
    insert_before a s m = Except.ok
      (amodify (amodify (amodify (detach a m) m
          (fun x => { x with parent := some p, prevSibling := sn.prevSibling, nextSibling := some s }))
        s (fun x => { x with prevSibling := some m }))
        p (fun x => { x with firstChild := some m })) := by
  simp only [insert_before, hs, hpar, hprev]

theorem insert_before_eq_dead {a : Arena} {s m : Handle}
    (hs : aget (detach a m) s = none) :
    insert_before a s m = Except.error DomError.invalidHandle := by
  simp only [insert_before, hs]

theorem insert_before_eq_no_parent {a : Arena} {s m : Handle} {sn : Node}
    (hs : aget (detach a m) s = some sn) (hpar : sn.parent = none) :
    insert_before a s m = Except.error DomError.noParent := by
  simp only [insert_before, hs, hpar]

/-! ### Invariant preservation -/

/-- Replacing a payload by one of the same Text-ness (the coalescing merge)
preserves the invariant. -/
theorem Inv_aset_data {a : Arena} {h : Handle} {n : Node} {nd : NodeData}
    (hInv : Inv a) (H : aget a h = some n)
    (htext : isTextData nd = isTextData n.data) :
    Inv (aset a h { n with data := nd }) := by
  obtain ⟨hWF, hAdj⟩ := hInv
  constructor
  · intro i m hi
    rw [length_aset]
    rw [aget_aset (aget_lt H)] at hi
    by_cases hih : i = h
    · rw [if_pos hih] at hi
      cases hi
      exact hWF h n H
    · rw [if_neg hih] at hi
      exact hWF i m hi
  · intro i j hn ht1 ht2
    have hnx : ∀ k, nextOf (aset a h { n with data := nd }) k = nextOf a k := by
      intro k
      unfold nextOf
      rw [aget_aset (aget_lt H)]
      by_cases hkh : k = h
      · subst hkh
        rw [if_pos rfl, H]
      · rw [if_neg hkh]
    have htx : ∀ k, textAt (aset a h { n with data := nd }) k = textAt a k := by
      intro k
      unfold textAt
      rw [aget_aset (aget_lt H)]
      by_cases hkh : k = h
      · subst hkh
        rw [if_pos rfl, H]
        simp [htext]
      · rw [if_neg hkh]
    rw [hnx] at hn
    rw [htx] at ht1 ht2
    exact hAdj i j hn ht1 ht2

theorem dataAt_eq_textAt {a b : Arena} (H : ∀ k, dataAt b k = dataAt a k) (k : Handle) :
    textAt b k = textAt a k := textAt_eq_of_dataAt k (H k)

/-- Appending a fully detached child preserves the invariant, provided a Text
child is only appended after a non-Text (or absent) last child. -/
theorem Inv_append_child {a : Arena} {p c : Handle} {cn pn : Node}
    (hInv : Inv a) (hp : aget a p = some pn) (hc : aget a c = some cn)
    (hdet : fullyDetached cn)
    (hsafe : isTextData cn.data = true →
      ∀ l ln, pn.lastChild = some l → aget a l = some ln → isTextData ln.data = false) :
    Inv (append_child a p c) := by
  obtain ⟨hWF, hAdj⟩ := hInv
  obtain ⟨h1, h2, h3⟩ := hdet
  have hdid : detach a c = a := detach_unlinked hc h1 h2 h3
  have hplt : p < a.length := aget_lt hp
  have hclt : c < a.length := aget_lt hc
  have hp' : aget (detach a c) p = some pn := by rw [hdid]; exact hp
  cases hl : pn.lastChild with
  | none =>
    rw [append_child_eq_of_no_last hp' hl, hdid]
    constructor
    · apply WFP_amodify
      · apply WFP_amodify hWF
        intro n hn
        obtain ⟨q1, q2, q3, q4, q5⟩ := nodeWF_parts hn
        exact nodeWF_build (linkOk_some_of_lt hplt) q2 q3 q4 q5
      · rw [length_amodify]
        intro n hn
        obtain ⟨q1, q2, q3, q4, q5⟩ := nodeWF_parts hn
        exact nodeWF_build q1 q2 q3 (linkOk_some_of_lt hclt) (linkOk_some_of_lt hclt)
    · intro i j hn ht1 ht2
      have hnx : ∀ k, nextOf (amodify (amodify a c (fun x => { x with parent := some p }))
          p (fun x => { x with firstChild := some c, lastChild := some c })) k = nextOf a k := by
        intro k
        rw [nextOf_amodify_keep, nextOf_amodify_keep]
        · intro n; rfl
        · intro n; rfl
      have htx : ∀ k, textAt (amodify (amodify a c (fun x => { x with parent := some p }))
          p (fun x => { x with firstChild := some c, lastChild := some c })) k = textAt a k := by
        intro k
        apply textAt_eq_of_dataAt
        rw [dataAt_amodify, dataAt_amodify]
        · intro n; rfl
        · intro n; rfl
      rw [hnx] at hn
      rw [htx] at ht1 ht2
      exact hAdj i j hn ht1 ht2
  | some l =>
    have hllt : l < a.length := linkOk_some (hl ▸ (nodeWF_parts (hWF p pn hp)).2.2.2.2)
    obtain ⟨ln, hln⟩ := aget_isSome hllt
    rw [append_child_eq_of_last hp' hl, hdid]
    constructor
    · apply WFP_amodify
      · apply WFP_amodify
        · apply WFP_amodify hWF
          intro n hn
          obtain ⟨q1, q2, q3, q4, q5⟩ := nodeWF_parts hn
          exact nodeWF_build q1 q2 (linkOk_some_of_lt hclt) q4 q5
        · rw [length_amodify]
          intro n hn
          obtain ⟨q1, q2, q3, q4, q5⟩ := nodeWF_parts hn
          exact nodeWF_build (linkOk_some_of_lt hplt) (linkOk_some_of_lt hllt) q3 q4 q5
      · rw [length_amodify, length_amodify]
        intro n hn
        obtain ⟨q1, q2, q3, q4, q5⟩ := nodeWF_parts hn
        exact nodeWF_build q1 q2 q3 q4 (linkOk_some_of_lt hclt)
    · intro i j hn ht1 ht2
      have htx : ∀ k, textAt (amodify (amodify (amodify a l (fun x => { x with nextSibling := some c }))
          c (fun x => { x with parent := some p, prevSibling := some l }))
          p (fun x => { x with lastChild := some c })) k = textAt a k := by
        intro k
        apply textAt_eq_of_dataAt
        rw [dataAt_amodify, dataAt_amodify, dataAt_amodify]
        · intro n; rfl
        · intro n; rfl
        · intro n; rfl
      have hnx : ∀ k, nextOf (amodify (amodify (amodify a l (fun x => { x with nextSibling := some c }))
          c (fun x => { x with parent := some p, prevSibling := some l }))
          p (fun x => { x with lastChild := some c })) k =
          nextOf (amodify a l (fun x => { x with nextSibling := some c })) k := by
        intro k
        rw [nextOf_amodify_keep, nextOf_amodify_keep]
        · intro n; rfl
        · intro n; rfl
      rw [htx] at ht1 ht2
      rw [hnx] at hn
      by_cases hil : i = l
      · subst hil
        rw [nextOf_amodify_self hln] at hn
        simp only [Option.some.injEq] at hn
        subst hn
        have hct : textAt a c = isTextData cn.data := by
          unfold textAt
          rw [hc]
        rw [hct] at ht2
        have hlt : textAt a i = isTextData ln.data := by
          unfold textAt
          rw [hln]
        rw [hlt] at ht1
        rw [hsafe ht2 i ln hl hln] at ht1
        cases ht1
      · rw [nextOf_amodify_ne _ hil] at hn
        exact hAdj i j hn ht1 ht2

/-- Splicing a fully detached node before a non-Text sibling preserves the
invariant, provided a Text node is only spliced after a non-Text (or absent)
preceding node. -/
theorem Inv_insert_before {a : Arena} {s m : Handle} {mn sn : Node} {a2 : Arena}
    (hInv : Inv a) (hm : aget a m = some mn) (hdet : fullyDetached mn)
    (hs : aget a s = some sn) (hsnt : isTextData sn.data = false)
    (hsafe : isTextData mn.data = true →
      ∀ pr prn, sn.prevSibling = some pr → aget a pr = some prn →
        isTextData prn.data = false)
    (hok : insert_before a s m = Except.ok a2) : Inv a2 := by
  obtain ⟨hWF, hAdj⟩ := hInv
  obtain ⟨h1, h2, h3⟩ := hdet
  have hdid : detach a m = a := detach_unlinked hm h1 h2 h3
  have hmlt : m < a.length := aget_lt hm
  have hslt : s < a.length := aget_lt hs
  have hs' : aget (detach a m) s = some sn := by rw [hdid]; exact hs
  have hsparts := nodeWF_parts (hWF s sn hs)
  cases hpar : sn.parent with
  | none =>
    rw [insert_before_eq_no_parent hs' hpar] at hok
    cases hok
  | some p =>
    have hplt : p < a.length := linkOk_some (hpar ▸ hsparts.1)
    cases hprev : sn.prevSibling with
    | some pr =>
      have hprlt : pr < a.length := linkOk_some (hprev ▸ hsparts.2.1)
      obtain ⟨prn, hprn⟩ := aget_isSome hprlt
      rw [insert_before_eq_of_prev hs' hpar hprev, hdid] at hok
      simp only [Except.ok.injEq] at hok
      subst hok
      constructor
      · apply WFP_amodify
        · apply WFP_amodify
          · apply WFP_amodify hWF
            intro n hn
            obtain ⟨q1, q2, q3, q4, q5⟩ := nodeWF_parts hn
            exact nodeWF_build (linkOk_some_of_lt hplt) hsparts.2.1
              (linkOk_some_of_lt hslt) q4 q5
          · rw [length_amodify]
            intro n hn
            obtain ⟨q1, q2, q3, q4, q5⟩ := nodeWF_parts hn
            exact nodeWF_build q1 (linkOk_some_of_lt hmlt) q3 q4 q5
        · rw [length_amodify, length_amodify]
          intro n hn
          obtain ⟨q1, q2, q3, q4, q5⟩ := nodeWF_parts hn
          exact nodeWF_build q1 q2 (linkOk_some_of_lt hmlt) q4 q5
      · intro i j hn ht1 ht2
        have htx : ∀ k, textAt (amodify (amodify (amodify a m
            (fun x => { x with parent := some p, prevSibling := sn.prevSibling, nextSibling := some s }))
            s (fun x => { x with prevSibling := some m }))
            pr (fun x => { x with nextSibling := some m })) k = textAt a k := by
          intro k
          apply textAt_eq_of_dataAt
          rw [dataAt_amodify, dataAt_amodify, dataAt_amodify]
          · intro n; rfl
          · intro n; rfl
          · intro n; rfl
        rw [htx] at ht1 ht2
        have htm : textAt a m = isTextData mn.data := by
          unfold textAt
          rw [hm]
        have hts : textAt a s = isTextData sn.data := by
          unfold textAt
          rw [hs]
        have hnx : ∀ k, k ≠ pr → nextOf (amodify (amodify (amodify a m
            (fun x => { x with parent := some p, prevSibling := sn.prevSibling, nextSibling := some s }))
            s (fun x => { x with prevSibling := some m }))
            pr (fun x => { x with nextSibling := some m })) k =
            nextOf (amodify a m
              (fun x => { x with parent := some p, prevSibling := sn.prevSibling, nextSibling := some s })) k := by
          intro k hk
          rw [nextOf_amodify_ne _ hk, nextOf_amodify_keep]
          intro n; rfl
        by_cases hipr : i = pr
        · subst hipr
          obtain ⟨w, hw⟩ : ∃ w, aget (amodify (amodify a m
              (fun x => { x with parent := some p, prevSibling := sn.prevSibling, nextSibling := some s }))
              s (fun x => { x with prevSibling := some m })) i = some w := by
            apply aget_isSome
            rw [length_amodify, length_amodify]
            exact hprlt
          rw [nextOf_amodify_self hw] at hn
          simp only [Option.some.injEq] at hn
          subst hn
          rw [htm] at ht2
          have hprx : textAt a i = isTextData prn.data := by
            unfold textAt
            rw [hprn]
          rw [hprx, hsafe ht2 i prn hprev hprn] at ht1
          cases ht1
        · rw [hnx i hipr] at hn
          by_cases him : i = m
          · subst him
            rw [nextOf_amodify_self hm] at hn
            simp only [Option.some.injEq] at hn
            subst hn
            rw [hts, hsnt] at ht2
            cases ht2
          · rw [nextOf_amodify_ne _ him] at hn
            exact hAdj i j hn ht1 ht2
    | none =>
      rw [insert_before_eq_of_no_prev hs' hpar hprev, hdid] at hok
      simp only [Except.ok.injEq] at hok
      subst hok
      constructor
      · apply WFP_amodify
        · apply WFP_amodify
          · apply WFP_amodify hWF
            intro n hn
            obtain ⟨q1, q2, q3, q4, q5⟩ := nodeWF_parts hn
            exact nodeWF_build (linkOk_some_of_lt hplt) hsparts.2.1
              (linkOk_some_of_lt hslt) q4 q5
          · rw [length_amodify]
            intro n hn
            obtain ⟨q1, q2, q3, q4, q5⟩ := nodeWF_parts hn
            exact nodeWF_build q1 (linkOk_some_of_lt hmlt) q3 q4 q5
        · rw [length_amodify, length_amodify]
          intro n hn
          obtain ⟨q1, q2, q3, q4, q5⟩ := nodeWF_parts hn
          exact nodeWF_build q1 q2 q3 (linkOk_some_of_lt hmlt) q5
      · intro i j hn ht1 ht2
        have htx : ∀ k, textAt (amodify (amodify (amodify a m
            (fun x => { x with parent := some p, prevSibling := sn.prevSibling, nextSibling := some s }))
            s (fun x => { x with prevSibling := some m }))
            p (fun x => { x with firstChild := some m })) k = textAt a k := by
          intro k
          apply textAt_eq_of_dataAt
          rw [dataAt_amodify, dataAt_amodify, dataAt_amodify]
          · intro n; rfl
          · intro n; rfl
          · intro n; rfl
        rw [htx] at ht1 ht2
        have hts : textAt a s = isTextData sn.data := by
          unfold textAt
          rw [hs]
        have hnx : ∀ k, nextOf (amodify (amodify (amodify a m
            (fun x => { x with parent := some p, prevSibling := sn.prevSibling, nextSibling := some s }))
            s (fun x => { x with prevSibling := some m }))
            p (fun x => { x with firstChild := some m })) k =
            nextOf (amodify a m
              (fun x => { x with parent := some p, prevSibling := sn.prevSibling, nextSibling := some s })) k := by
          intro k
          rw [nextOf_amodify_keep, nextOf_amodify_keep]
          · intro n; rfl
          · intro n; rfl
        rw [hnx] at hn
        by_cases him : i = m
        · subst him
          rw [nextOf_amodify_self hm] at hn
          simp only [Option.some.injEq] at hn
          subst hn
          rw [hts, hsnt] at ht2
          cases ht2
        · rw [nextOf_amodify_ne _ him] at hn
          exact hAdj i j hn ht1 ht2

/-! ### Equation lemmas for the sink operations -/

theorem append_eq_dead {d : Dom} {p : Handle} {child : NodeOrText}
    (hp : aget d.arena p = none) :
    append d p child = Except.error DomError.invalidHandle := by
  simp only [append, hp]

theorem append_eq_merge {d : Dom} {p : Handle} {pn : Node} {h : Handle} {hn : Node}
    {s t : String} (hp : aget d.arena p = some pn) (hl : pn.lastChild = some h)
    (hh : aget d.arena h = some hn) (hd : hn.data = NodeData.text s) :
    append d p (NodeOrText.appendText t) =
      Except.ok { d with arena := aset d.arena h { hn with data := NodeData.text (s ++ t) } } := by
  simp only [append, hp, hl, append_to_existing_text, hh, hd]
  rw [amodify_eq_aset hh]

theorem append_eq_new_text_last {d : Dom} {p : Handle} {pn : Node} {h : Handle} {hn : Node}
    {t : String} (hp : aget d.arena p = some pn) (hl : pn.lastChild = some h)
    (hh : aget d.arena h = some hn) (hd : isTextData hn.data = false) :
    append d p (NodeOrText.appendText t) =
      Except.ok { d with arena := append_child (alloc d.arena (NodeData.text t)).1 p d.arena.length } := by
  cases hdd : hn.data <;>
    simp only [append, hp, hl, append_to_existing_text, hh, hdd, alloc]
  rw [hdd] at hd
  simp [isTextData] at hd

theorem append_eq_new_text_nolast {d : Dom} {p : Handle} {pn : Node}
    {t : String} (hp : aget d.arena p = some pn) (hl : pn.lastChild = none) :
    append d p (NodeOrText.appendText t) =
      Except.ok { d with arena := append_child (alloc d.arena (NodeData.text t)).1 p d.arena.length } := by
  simp only [append, hp, hl, alloc]

theorem append_eq_node {d : Dom} {p : Handle} {pn : Node} {c : Handle}
    (hp : aget d.arena p = some pn) :
    append d p (NodeOrText.appendNode c) =
      Except.ok { d with arena := append_child d.arena p c } := by
  simp only [append, hp]

theorem abs_eq_dead {d : Dom} {s : Handle} {child : NodeOrText}
    (hs : aget d.arena s = none) :
    append_before_sibling d s child = Except.error DomError.invalidHandle := by
  simp only [append_before_sibling, hs]

theorem abs_eq_text_noprev {d : Dom} {s : Handle} {sn : Node} {t : String}
    (hs : aget d.arena s = some sn) (hprev : sn.prevSibling = none) :
    append_before_sibling d s (NodeOrText.appendText t) =
      (insert_before (alloc d.arena (NodeData.text t)).1 s d.arena.length).map
        (fun a => { d with arena := a }) := by
  simp only [append_before_sibling, hs, hprev, alloc]

theorem abs_eq_merge {d : Dom} {s : Handle} {sn : Node} {pr : Handle} {prn : Node}
    {s0 t : String} (hs : aget d.arena s = some sn) (hprev : sn.prevSibling = some pr)
    (hpr : aget d.arena pr = some prn) (hd : prn.data = NodeData.text s0) :
    append_before_sibling d s (NodeOrText.appendText t) =
      Except.ok { d with arena := aset d.arena pr { prn with data := NodeData.text (s0 ++ t) } } := by
  simp only [append_before_sibling, hs, hprev, append_to_existing_text, hpr, hd]
  rw [amodify_eq_aset hpr]

theorem abs_eq_text_prev {d : Dom} {s : Handle} {sn : Node} {pr : Handle} {prn : Node}
    {t : String} (hs : aget d.arena s = some sn) (hprev : sn.prevSibling = some pr)
    (hpr : aget d.arena pr = some prn) (hd : isTextData prn.data = false) :
    append_before_sibling d s (NodeOrText.appendText t) =
      (insert_before (alloc d.arena (NodeData.text t)).1 s d.arena.length).map
        (fun a => { d with arena := a }) := by
  cases hdd : prn.data <;>
    simp only [append_before_sibling, hs, hprev, append_to_existing_text, hpr, hdd, alloc]
  rw [hdd] at hd
  simp [isTextData] at hd

theorem abs_eq_node {d : Dom} {s : Handle} {sn : Node} {c : Handle}
    (hs : aget d.arena s = some sn) :
    append_before_sibling d s (NodeOrText.appendNode c) =
      (insert_before d.arena s c).map (fun a => { d with arena := a }) := by
  simp only [append_before_sibling, hs]

theorem append_eq_merge_dead {d : Dom} {p : Handle} {pn : Node} {h : Handle} {t : String}
    (hp : aget d.arena p = some pn) (hl : pn.lastChild = some h)
    (hh : aget d.arena h = none) :
    append d p (NodeOrText.appendText t) = Except.error DomError.invalidHandle := by
  simp only [append, hp, hl, append_to_existing_text, hh]

theorem abs_eq_merge_dead {d : Dom} {s : Handle} {sn : Node} {pr : Handle} {t : String}
    (hs : aget d.arena s = some sn) (hprev : sn.prevSibling = some pr)
    (hpr : aget d.arena pr = none) :
    append_before_sibling d s (NodeOrText.appendText t) = Except.error DomError.invalidHandle := by
  simp only [append_before_sibling, hs, hprev, append_to_existing_text, hpr]

theorem abopn_eq_dead {d : Dom} {e pe : Handle} {child : NodeOrText}
    (he : aget d.arena e = none) :
    append_based_on_parent_node d e pe child = Except.error DomError.invalidHandle := by
  simp only [append_based_on_parent_node, he]

theorem abopn_eq_sibling {d : Dom} {e pe : Handle} {en : Node} {child : NodeOrText}
    (he : aget d.arena e = some en) (hpar : en.parent.isSome = true) :
    append_based_on_parent_node d e pe child = append_before_sibling d e child := by
  simp only [append_based_on_parent_node, he, hpar, if_true]

theorem abopn_eq_append {d : Dom} {e pe : Handle} {en : Node} {child : NodeOrText}
    (he : aget d.arena e = some en) (hpar : en.parent = none) :
    append_based_on_parent_node d e pe child = append d pe child := by
  simp only [append_based_on_parent_node, he, hpar]
  rfl

/-! ### Fresh-node placement lemmas -/

theorem append_child_fresh_no_last {a : Arena} {p : Handle} {pn : Node} (nd : NodeData)
    (hp : aget a p = some pn) (hl : pn.lastChild = none) :
    (append_child (alloc a nd).1 p a.length).length = a.length + 1 ∧
    dataAt (append_child (alloc a nd).1 p a.length) a.length = some nd ∧
    firstOf (append_child (alloc a nd).1 p a.length) p = some a.length ∧
    lastOf (append_child (alloc a nd).1 p a.length) p = some a.length ∧
    parentOf (append_child (alloc a nd).1 p a.length) a.length = some p ∧
    prevOf (append_child (alloc a nd).1 p a.length) a.length = none ∧
    nextOf (append_child (alloc a nd).1 p a.length) a.length = none := by
  have hplt : p < a.length := aget_lt hp
  have hpL : p ≠ a.length := Nat.ne_of_lt hplt
  have hfresh := aget_alloc_new a nd
  have hdid : detach (alloc a nd).1 a.length = (alloc a nd).1 :=
    detach_unlinked hfresh rfl rfl rfl
  have hp1 : aget (alloc a nd).1 p = some pn := by
    rw [aget_alloc_old nd hplt]
    exact hp
  have hp' : aget (detach (alloc a nd).1 a.length) p = some pn := by
    rw [hdid]
    exact hp1
  rw [append_child_eq_of_no_last hp' hl, hdid]
  have hXp : aget (amodify (alloc a nd).1 a.length (fun x => { x with parent := some p })) p =
      some pn := by
    rw [aget_amodify_ne _ hpL]
    exact hp1
  refine ⟨?_, ?_, ?_, ?_, ?_, ?_, ?_⟩
  · rw [length_amodify, length_amodify, length_alloc]
  · rw [dataAt_amodify, dataAt_amodify]
    · unfold dataAt
      rw [hfresh]
      rfl
    · intro n; rfl
    · intro n; rfl
  · rw [firstOf_amodify_self hXp]
  · rw [lastOf_amodify_self hXp]
  · rw [parentOf_amodify_keep]
    · rw [parentOf_amodify_self hfresh]
    · intro n; rfl
  · rw [prevOf_amodify_keep]
    · rw [prevOf_amodify_keep]
      · unfold prevOf
        rw [hfresh]
        rfl
      · intro n; rfl
    · intro n; rfl
  · rw [nextOf_amodify_keep, nextOf_amodify_keep]
    · unfold nextOf
      rw [hfresh]
      rfl
    · intro n; rfl
    · intro n; rfl

theorem append_child_fresh_last {a : Arena} {p : Handle} {pn : Node} {l : Handle} (nd : NodeData)
    (hp : aget a p = some pn) (hl : pn.lastChild = some l) (hllt : l < a.length) :
    (append_child (alloc a nd).1 p a.length).length = a.length + 1 ∧
    dataAt (append_child (alloc a nd).1 p a.length) a.length = some nd ∧
    prevOf (append_child (alloc a nd).1 p a.length) a.length = some l ∧
    parentOf (append_child (alloc a nd).1 p a.length) a.length = some p ∧
    nextOf (append_child (alloc a nd).1 p a.length) a.length = none ∧
    nextOf (append_child (alloc a nd).1 p a.length) l = some a.length ∧
    lastOf (append_child (alloc a nd).1 p a.length) p = some a.length := by
  have hplt : p < a.length := aget_lt hp
  have hpL : p ≠ a.length := Nat.ne_of_lt hplt
  have hlL : l ≠ a.length := Nat.ne_of_lt hllt
  have hfresh := aget_alloc_new a nd
  have hdid : detach (alloc a nd).1 a.length = (alloc a nd).1 :=
    detach_unlinked hfresh rfl rfl rfl
  have hp1 : aget (alloc a nd).1 p = some pn := by
    rw [aget_alloc_old nd hplt]
    exact hp
  have hp' : aget (detach (alloc a nd).1 a.length) p = some pn := by
    rw [hdid]
    exact hp1
  obtain ⟨ln1, hln1⟩ := @aget_isSome (alloc a nd).1 l
    (by rw [length_alloc]; exact Nat.lt_succ_of_lt hllt)
  have hX1L : aget (amodify (alloc a nd).1 l (fun x => { x with nextSibling := some a.length }))
      a.length = some (mkNode nd) := by
    rw [aget_amodify_ne _ (Ne.symm hlL)]
    exact hfresh
  rw [append_child_eq_of_last hp' hl, hdid]
  refine ⟨?_, ?_, ?_, ?_, ?_, ?_, ?_⟩
  · rw [length_amodify, length_amodify, length_amodify, length_alloc]
  · rw [dataAt_amodify, dataAt_amodify, dataAt_amodify]
    · unfold dataAt
      rw [hfresh]
      rfl
    · intro n; rfl
    · intro n; rfl
    · intro n; rfl
  · rw [prevOf_amodify_keep]
    · rw [prevOf_amodify_self hX1L]
    · intro n; rfl
  · rw [parentOf_amodify_keep]
    · rw [parentOf_amodify_self hX1L]
    · intro n; rfl
  · rw [nextOf_amodify_keep, nextOf_amodify_keep]
    · rw [nextOf_amodify_ne _ (Ne.symm hlL)]
      unfold nextOf
      rw [hfresh]
      rfl
    · intro n; rfl
    · intro n; rfl
  · rw [nextOf_amodify_keep, nextOf_amodify_keep]
    · rw [nextOf_amodify_self hln1]
    · intro n; rfl
    · intro n; rfl
  · obtain ⟨w, hw⟩ := @aget_isSome
      (amodify (amodify (alloc a nd).1 l (fun x => { x with nextSibling := some a.length }))
        a.length (fun x => { x with parent := some p, prevSibling := some l })) p
      (by rw [length_amodify, length_amodify, length_alloc]; exact Nat.lt_succ_of_lt hplt)
    rw [lastOf_amodify_self hw]

theorem insert_before_fresh_noprev {a : Arena} {s : Handle} {sn : Node} (nd : NodeData)
    {par : Handle} (hs : aget a s = some sn) (hpar : sn.parent = some par)
    (hprev : sn.prevSibling = none) :
    ∃ a2, insert_before (alloc a nd).1 s a.length = Except.ok a2 ∧
      a2.length = a.length + 1 ∧
      dataAt a2 a.length = some nd ∧
      nextOf a2 a.length = some s ∧
      prevOf a2 a.length = none ∧
      parentOf a2 a.length = some par ∧
      prevOf a2 s = some a.length := by
  have hslt : s < a.length := aget_lt hs
  have hsL : s ≠ a.length := Nat.ne_of_lt hslt
  have hfresh := aget_alloc_new a nd
  have hdid : detach (alloc a nd).1 a.length = (alloc a nd).1 :=
    detach_unlinked hfresh rfl rfl rfl
  have hs1 : aget (alloc a nd).1 s = some sn := by
    rw [aget_alloc_old nd hslt]
    exact hs
  have hs' : aget (detach (alloc a nd).1 a.length) s = some sn := by
    rw [hdid]
    exact hs1
  rw [insert_before_eq_of_no_prev hs' hpar hprev, hdid]
  refine ⟨_, rfl, ?_, ?_, ?_, ?_, ?_, ?_⟩
  · rw [length_amodify, length_amodify, length_amodify, length_alloc]
  · rw [dataAt_amodify, dataAt_amodify, dataAt_amodify]
    · unfold dataAt
      rw [hfresh]
      rfl
    · intro n; rfl
    · intro n; rfl
    · intro n; rfl
  · rw [nextOf_amodify_keep, nextOf_amodify_keep]
    · rw [nextOf_amodify_self hfresh]
    · intro n; rfl
    · intro n; rfl
  · rw [prevOf_amodify_keep]
    · rw [prevOf_amodify_ne _ (Ne.symm hsL), prevOf_amodify_self hfresh]
      simp [hprev]
    · intro n; rfl
  · rw [parentOf_amodify_keep]
    · rw [parentOf_amodify_keep]
      · rw [parentOf_amodify_self hfresh]
      · intro n; rfl
    · intro n; rfl
  · rw [prevOf_amodify_keep]
    · have hXs : aget (amodify (alloc a nd).1 a.length
          (fun x => { x with parent := some par, prevSibling := sn.prevSibling, nextSibling := some s }))
          s = some sn := by
        rw [aget_amodify_ne _ hsL]
        exact hs1
      rw [prevOf_amodify_self hXs]
    · intro n; rfl

theorem insert_before_fresh_prev {a : Arena} {s : Handle} {sn : Node} (nd : NodeData)
    {par pr : Handle} (hs : aget a s = some sn) (hpar : sn.parent = some par)
    (hprev : sn.prevSibling = some pr) (hprlt : pr < a.length) :
    ∃ a2, insert_before (alloc a nd).1 s a.length = Except.ok a2 ∧
      a2.length = a.length + 1 ∧
      dataAt a2 a.length = some nd ∧
      nextOf a2 a.length = some s ∧
      prevOf a2 a.length = some pr ∧
      parentOf a2 a.length = some par ∧
      prevOf a2 s = some a.length ∧
      nextOf a2 pr = some a.length := by
  have hslt : s < a.length := aget_lt hs
  have hsL : s ≠ a.length := Nat.ne_of_lt hslt
  have hprL : pr ≠ a.length := Nat.ne_of_lt hprlt
  have hfresh := aget_alloc_new a nd
  have hdid : detach (alloc a nd).1 a.length = (alloc a nd).1 :=
    detach_unlinked hfresh rfl rfl rfl
  have hs1 : aget (alloc a nd).1 s = some sn := by
    rw [aget_alloc_old nd hslt]
    exact hs
  have hs' : aget (detach (alloc a nd).1 a.length) s = some sn := by
    rw [hdid]
    exact hs1
  rw [insert_before_eq_of_prev hs' hpar hprev, hdid]
  refine ⟨_, rfl, ?_, ?_, ?_, ?_, ?_, ?_, ?_⟩
  · rw [length_amodify, length_amodify, length_amodify, length_alloc]
  · rw [dataAt_amodify, dataAt_amodify, dataAt_amodify]
    · unfold dataAt
      rw [hfresh]
      rfl
    · intro n; rfl
    · intro n; rfl
    · intro n; rfl
  · rw [nextOf_amodify_ne _ (Ne.symm hprL), nextOf_amodify_keep]
    · rw [nextOf_amodify_self hfresh]
    · intro n; rfl
  · rw [prevOf_amodify_keep]
    · rw [prevOf_amodify_ne _ (Ne.symm hsL), prevOf_amodify_self hfresh]
      simp [hprev]
    · intro n; rfl
  · rw [parentOf_amodify_keep]
    · rw [parentOf_amodify_keep]
      · rw [parentOf_amodify_self hfresh]
      · intro n; rfl
    · intro n; rfl
  · rw [prevOf_amodify_keep]
    · have hXs : aget (amodify (alloc a nd).1 a.length
          (fun x => { x with parent := some par, prevSibling := sn.prevSibling, nextSibling := some s }))
          s = some sn := by
        rw [aget_amodify_ne _ hsL]
        exact hs1
      rw [prevOf_amodify_self hXs]
    · intro n; rfl
  · obtain ⟨w, hw⟩ := @aget_isSome
      (amodify (amodify (alloc a nd).1 a.length
        (fun x => { x with parent := some par, prevSibling := sn.prevSibling, nextSibling := some s }))
        s (fun x => { x with prevSibling := some a.length })) pr
      (by rw [length_amodify, length_amodify, length_alloc]; exact Nat.lt_succ_of_lt hprlt)
    rw [nextOf_amodify_self hw]

theorem insert_before_node_detached {a : Arena} {s c : Handle} {sn cn : Node} {par : Handle}
    (hs : aget a s = some sn) (hpar : sn.parent = some par)
    (hc : aget a c = some cn) (hdet : fullyDetached cn)
    (hprc : sn.prevSibling ≠ some c) :
    ∃ a2, insert_before a s c = Except.ok a2 ∧
      a2.length = a.length ∧
      nextOf a2 c = some s ∧
      prevOf a2 s = some c ∧
      parentOf a2 c = some par ∧
      (∀ k, dataAt a2 k = dataAt a k) := by
  obtain ⟨h1, h2, h3⟩ := hdet
  have hsc : s ≠ c := by
    intro he
    rw [he, hc] at hs
    cases hs
    rw [h1] at hpar
    cases hpar
  have hdid : detach a c = a := detach_unlinked hc h1 h2 h3
  have hs' : aget (detach a c) s = some sn := by
    rw [hdid]
    exact hs
  cases hprev : sn.prevSibling with
  | none =>
    rw [insert_before_eq_of_no_prev hs' hpar hprev, hdid]
    refine ⟨_, rfl, ?_, ?_, ?_, ?_, ?_⟩
    · rw [length_amodify, length_amodify, length_amodify]
    · rw [nextOf_amodify_keep, nextOf_amodify_keep]
      · rw [nextOf_amodify_self hc]
      · intro n; rfl
      · intro n; rfl
    · rw [prevOf_amodify_keep]
      · have hXs : aget (amodify a c
            (fun x => { x with parent := some par, prevSibling := sn.prevSibling, nextSibling := some s }))
            s = some sn := by
          rw [aget_amodify_ne _ hsc]
          exact hs
        rw [prevOf_amodify_self hXs]
      · intro n; rfl
    · rw [parentOf_amodify_keep]
      · rw [parentOf_amodify_keep]
        · rw [parentOf_amodify_self hc]
        · intro n; rfl
      · intro n; rfl
    · intro k
      rw [dataAt_amodify, dataAt_amodify, dataAt_amodify]
      · intro n; rfl
      · intro n; rfl
      · intro n; rfl
  | some pr =>
    have hcpr : c ≠ pr := by
      intro he
      rw [he] at hprc
      exact hprc hprev
    rw [insert_before_eq_of_prev hs' hpar hprev, hdid]
    refine ⟨_, rfl, ?_, ?_, ?_, ?_, ?_⟩
    · rw [length_amodify, length_amodify, length_amodify]
    · rw [nextOf_amodify_ne _ hcpr, nextOf_amodify_keep]
      · rw [nextOf_amodify_self hc]
      · intro n; rfl
    · rw [prevOf_amodify_keep]
      · have hXs : aget (amodify a c
            (fun x => { x with parent := some par, prevSibling := sn.prevSibling, nextSibling := some s }))
            s = some sn := by
          rw [aget_amodify_ne _ hsc]
          exact hs
        rw [prevOf_amodify_self hXs]
      · intro n; rfl
    · rw [parentOf_amodify_keep]
      · rw [parentOf_amodify_keep]
        · rw [parentOf_amodify_self hc]
        · intro n; rfl
      · intro n; rfl
    · intro k
      rw [dataAt_amodify, dataAt_amodify, dataAt_amodify]
      · intro n; rfl
      · intro n; rfl
      · intro n; rfl

/-! ### Dom-level invariant preservation -/

/-- The per-call conditions on a child argument under which the coalescing
invariant is maintained: a node child must refer to a non-Text, fully
detached node. -/
def childOk (a : Arena) : NodeOrText → Prop
  | NodeOrText.appendText _ => True
  | NodeOrText.appendNode h =>
      ∃ n, aget a h = some n ∧ isTextData n.data = false ∧ fullyDetached n

theorem Inv_append_op {d : Dom} {p : Handle} {child : NodeOrText} {d2 : Dom}
    (hInv : Inv d.arena) (hch : childOk d.arena child)
    (hok : append d p child = Except.ok d2) : Inv d2.arena := by
  cases hp : aget d.arena p with
  | none =>
    rw [append_eq_dead hp] at hok
    cases hok
  | some pn =>
    have hplt : p < d.arena.length := aget_lt hp
    cases child with
    | appendText t =>
      cases hl : pn.lastChild with
      | none =>
        rw [append_eq_new_text_nolast hp hl] at hok
        simp only [Except.ok.injEq] at hok
        subst hok
        refine Inv_append_child (Inv_alloc _ hInv)
          (aget_alloc_old _ hplt ▸ hp) (aget_alloc_new d.arena (NodeData.text t))
          ⟨rfl, rfl, rfl⟩ ?_
        intro _ l ln hll _
        rw [hl] at hll
        cases hll
      | some h =>
        have hhlt : h < d.arena.length := linkOk_some (hl ▸ (nodeWF_parts (hInv.1 p pn hp)).2.2.2.2)
        obtain ⟨hnr, hh⟩ := aget_isSome hhlt
        by_cases htx : isTextData hnr.data = true
        · obtain ⟨s, hds⟩ : ∃ s, hnr.data = NodeData.text s := by
            cases hdd : hnr.data <;> simp [hdd, isTextData] at htx ⊢
          rw [append_eq_merge hp hl hh hds] at hok
          simp only [Except.ok.injEq] at hok
          subst hok
          exact Inv_aset_data hInv hh (by rw [hds]; rfl)
        · have htx' : isTextData hnr.data = false := by
            cases hb : isTextData hnr.data
            · rfl
            · exact absurd hb htx
          rw [append_eq_new_text_last hp hl hh htx'] at hok
          simp only [Except.ok.injEq] at hok
          subst hok
          refine Inv_append_child (Inv_alloc _ hInv)
            (aget_alloc_old _ hplt ▸ hp) (aget_alloc_new d.arena (NodeData.text t))
            ⟨rfl, rfl, rfl⟩ ?_
          intro _ l ln hll hlnn
          rw [hl] at hll
          cases hll
          rw [aget_alloc_old _ hhlt, hh] at hlnn
          cases hlnn
          exact htx'
    | appendNode c =>
      obtain ⟨cn, hc, hcnt, hcdet⟩ := hch
      rw [append_eq_node hp] at hok
      simp only [Except.ok.injEq] at hok
      subst hok
      refine Inv_append_child hInv hp hc hcdet ?_
      intro hct
      rw [hcnt] at hct
      cases hct

theorem Inv_abs_op {d : Dom} {s : Handle} {sn : Node} {child : NodeOrText} {d2 : Dom}
    (hInv : Inv d.arena) (hs : aget d.arena s = some sn)
    (hsnt : isTextData sn.data = false) (hch : childOk d.arena child)
    (hok : append_before_sibling d s child = Except.ok d2) : Inv d2.arena := by
  have hslt : s < d.arena.length := aget_lt hs
  cases child with
  | appendText t =>
    cases hprev : sn.prevSibling with
    | none =>
      rw [abs_eq_text_noprev hs hprev] at hok
      cases hib : insert_before (alloc d.arena (NodeData.text t)).1 s d.arena.length with
      | error e =>
        rw [hib] at hok
        cases hok
      | ok a2 =>
        rw [hib] at hok
        simp only [Except.map, Except.ok.injEq] at hok
        subst hok
        refine Inv_insert_before (Inv_alloc _ hInv)
          (aget_alloc_new d.arena (NodeData.text t)) ⟨rfl, rfl, rfl⟩
          (aget_alloc_old _ hslt ▸ hs) hsnt ?_ hib
        intro _ pr prn hpp _
        rw [hprev] at hpp
        cases hpp
    | some pr =>
      have hprlt : pr < d.arena.length := linkOk_some (hprev ▸ (nodeWF_parts (hInv.1 s sn hs)).2.1)
      obtain ⟨prn, hpr⟩ := aget_isSome hprlt
      by_cases htx : isTextData prn.data = true
      · obtain ⟨s0, hds⟩ : ∃ s0, prn.data = NodeData.text s0 := by
          cases hdd : prn.data <;> simp [hdd, isTextData] at htx ⊢
        rw [abs_eq_merge hs hprev hpr hds] at hok
        simp only [Except.ok.injEq] at hok
        subst hok
        exact Inv_aset_data hInv hpr (by rw [hds]; rfl)
      · have htx' : isTextData prn.data = false := by
          cases hb : isTextData prn.data
          · rfl
          · exact absurd hb htx
        rw [abs_eq_text_prev hs hprev hpr htx'] at hok
        cases hib : insert_before (alloc d.arena (NodeData.text t)).1 s d.arena.length with
        | error e =>
          rw [hib] at hok
          cases hok
        | ok a2 =>
          rw [hib] at hok
          simp only [Except.map, Except.ok.injEq] at hok
          subst hok
          refine Inv_insert_before (Inv_alloc _ hInv)
            (aget_alloc_new d.arena (NodeData.text t)) ⟨rfl, rfl, rfl⟩
            (aget_alloc_old _ hslt ▸ hs) hsnt ?_ hib
          intro _ pr2 prn2 hpp hpn2
          rw [hprev] at hpp
          cases hpp
          rw [aget_alloc_old _ hprlt, hpr] at hpn2
          cases hpn2
          exact htx'
  | appendNode c =>
    obtain ⟨cn, hc, hcnt, hcdet⟩ := hch
    rw [abs_eq_node hs] at hok
    cases hib : insert_before d.arena s c with
    | error e =>
      rw [hib] at hok
      cases hok
    | ok a2 =>
      rw [hib] at hok
      simp only [Except.map, Except.ok.injEq] at hok
      subst hok
      refine Inv_insert_before hInv hc hcdet hs hsnt ?_ hib
      intro hct
      rw [hcnt] at hct
      cases hct

theorem Inv_create_element_op {d : Dom} (name : QualName) (attrs : List Attribute)
    (flags : ElementFlags) (hInv : Inv d.arena) :
    Inv (create_element d name attrs flags).1.arena := by
  unfold create_element
  by_cases hf : flags.template
  · simp only [hf, if_true]
    exact Inv_alloc _ (Inv_alloc _ hInv)
  · simp only [hf, if_false]
    exact Inv_alloc _ hInv

theorem Inv_create_comment_op {d : Dom} (text : String) (hInv : Inv d.arena) :
    Inv (create_comment d text).1.arena := Inv_alloc _ hInv

theorem Inv_create_pi_op {d : Dom} (target data : String) (hInv : Inv d.arena) :
    Inv (create_pi d target data).1.arena := Inv_alloc _ hInv

theorem Inv_doctype_op {d : Dom} (name publicId systemId : String) (hInv : Inv d.arena) :
    Inv (append_doctype_to_document d name publicId systemId).arena := by
  unfold append_doctype_to_document
  simp only []
  rw [show (alloc d.arena (NodeData.doctype name publicId systemId)).2 = d.arena.length from rfl]
  have hInv1 : Inv (alloc d.arena (NodeData.doctype name publicId systemId)).1 :=
    Inv_alloc _ hInv
  have hfresh := aget_alloc_new d.arena (NodeData.doctype name publicId systemId)
  have hdid : detach (alloc d.arena (NodeData.doctype name publicId systemId)).1 d.arena.length =
      (alloc d.arena (NodeData.doctype name publicId systemId)).1 :=
    detach_unlinked hfresh rfl rfl rfl
  cases hdoc : aget (alloc d.arena (NodeData.doctype name publicId systemId)).1 d.document with
  | none =>
    have hdead : aget (detach (alloc d.arena (NodeData.doctype name publicId systemId)).1
        d.arena.length) d.document = none := by
      rw [hdid]
      exact hdoc
    rw [append_child_eq_dead hdead, hdid]
    exact hInv1
  | some dn =>
    refine Inv_append_child hInv1 hdoc hfresh ⟨rfl, rfl, rfl⟩ ?_
    intro hct
    simp [mkNode, isTextData] at hct

theorem Inv_mkDom : Inv mkDom.arena := by
  constructor
  · intro i n hi
    cases i with
    | zero =>
      simp [mkDom, alloc, aget, mkNode] at hi
      rw [← hi]
      exact nodeWF_build rfl rfl rfl rfl rfl
    | succ k =>
      simp [mkDom, alloc, aget] at hi
  · intro i j hn ht1 ht2
    cases i with
    | zero =>
      simp [mkDom, alloc, aget, mkNode, nextOf] at hn
    | succ k =>
      simp [mkDom, alloc, aget, nextOf] at hn

/-- The mutation sequences covered by the amended coalescing claim: runs of
sink operations from a fresh container in which node-handle children passed
to the append operations refer to non-Text, fully detached nodes, sibling and
element reference points refer to non-Text nodes, and `remove_from_parent`
and `reparent_children` are not used. -/
inductive Reachable : Dom → Prop where
  | base : Reachable mkDom
  | create_element (d : Dom) (name : QualName) (attrs : List Attribute)
      (flags : ElementFlags) : Reachable d →
      Reachable (GAD.create_element d name attrs flags).1
  | create_comment (d : Dom) (text : String) : Reachable d →
      Reachable (GAD.create_comment d text).1
  | create_pi (d : Dom) (target data : String) : Reachable d →
      Reachable (GAD.create_pi d target data).1
  | append (d : Dom) (p : Handle) (child : NodeOrText) (d2 : Dom) :
      Reachable d → childOk d.arena child →
      GAD.append d p child = Except.ok d2 → Reachable d2
  | append_before_sibling (d : Dom) (s : Handle) (sn : Node) (child : NodeOrText)
      (d2 : Dom) : Reachable d → aget d.arena s = some sn →
      isTextData sn.data = false → childOk d.arena child →
      GAD.append_before_sibling d s child = Except.ok d2 → Reachable d2
  | append_based_on_parent_node (d : Dom) (e : Handle) (en : Node) (pe : Handle)
      (child : NodeOrText) (d2 : Dom) : Reachable d → aget d.arena e = some en →
      isTextData en.data = false → childOk d.arena child →
      GAD.append_based_on_parent_node d e pe child = Except.ok d2 → Reachable d2
  | append_doctype_to_document (d : Dom) (name publicId systemId : String) :
      Reachable d → Reachable (GAD.append_doctype_to_document d name publicId systemId)
  | parse_error (d : Dom) (msg : String) : Reachable d →
      Reachable (GAD.parse_error d msg)
  | set_quirks_mode (d : Dom) (mode : QuirksMode) : Reachable d →
      Reachable (GAD.set_quirks_mode d mode)

theorem Inv_Reachable {d : Dom} (h : Reachable d) : Inv d.arena := by
  induction h with
  | base => exact Inv_mkDom
  | create_element d name attrs flags _ ih => exact Inv_create_element_op name attrs flags ih
  | create_comment d text _ ih => exact Inv_create_comment_op text ih
  | create_pi d target data _ ih => exact Inv_create_pi_op target data ih
  | append d p child d2 _ hch hok ih => exact Inv_append_op ih hch hok
  | append_before_sibling d s sn child d2 _ hs hsnt hch hok ih =>
    exact Inv_abs_op ih hs hsnt hch hok
  | append_based_on_parent_node d e en pe child d2 _ he hent hch hok ih =>
    cases hpar : en.parent with
    | some q =>
      rw [abopn_eq_sibling he (by rw [hpar]; rfl)] at hok
      exact Inv_abs_op ih he hent hch hok
    | none =>
      rw [abopn_eq_append he hpar] at hok
      exact Inv_append_op ih hch hok
  | append_doctype_to_document d name publicId systemId _ ih =>
    exact Inv_doctype_op name publicId systemId ih
  | parse_error d msg _ ih => exact ih
  | set_quirks_mode d mode _ ih => exact ih

/-! ### Concrete inputs for witnesses and counterexamples -/

/-- Extract the container from a successful operation (fallback otherwise);
used only to build concrete test states. -/
def okD : Except DomError Dom → Dom → Dom
  | Except.ok d, _ => d
  | Except.error _, fb => fb

/-- A sample qualified name. -/
def qnDiv : QualName := { ns := "", localName := "div" }

/-- A sample qualified attribute name. -/
def qnClass : QualName := { ns := "", localName := "class" }

/-- Flags of an ordinary (non-template) element. -/
def flagsNone : ElementFlags := { template := false, mathmlAIP := false }

/-- Flags of a template element. -/
def flagsTemplate : ElementFlags := { template := true, mathmlAIP := false }

/-! ### Claim theorems -/

/-- C4: for every pair of handles `element` and `prev_element` and every
child, `append_based_on_parent_node` behaves exactly as
`append_before_sibling(element, child)` when `element` currently has a
parent, and exactly as `append(prev_element, child)` when it does not. -/
theorem c4_append_based_on_parent_node (d : Dom) (element prevElement : Handle)
    (child : NodeOrText) (en : Node) (he : aget d.arena element = some en) :
    (en.parent.isSome = true →
      append_based_on_parent_node d element prevElement child =
        append_before_sibling d element child) ∧
    (en.parent = none →
      append_based_on_parent_node d element prevElement child =
        append d prevElement child) :=
  ⟨fun h => abopn_eq_sibling he h, fun h => abopn_eq_append he h⟩

/-- Witness for C4: on a freshly created (hence unattached) element the
operation appends to `prev_element`; on the root's first child it would
insert before it.  Exercises the no-parent branch concretely. -/
theorem c4_append_based_on_parent_node_witness :
    aget (create_element mkDom qnDiv [] flagsNone).1.arena 1 =
      some (mkNode (NodeData.element qnDiv [] none false)) ∧
    append_based_on_parent_node (create_element mkDom qnDiv [] flagsNone).1 1 0
        (NodeOrText.appendText "x") =
      append (create_element mkDom qnDiv [] flagsNone).1 0 (NodeOrText.appendText "x") :=
  ⟨rfl, (c4_append_based_on_parent_node (create_element mkDom qnDiv [] flagsNone).1 1 0
    (NodeOrText.appendText "x") (mkNode (NodeData.element qnDiv [] none false)) rfl).2 rfl⟩

/-- C5: on an Element target, `add_attrs_if_missing` appends exactly those
incoming attributes whose qualified name is not already present, never
modifies existing attributes (names or values), and changes no other node. -/
theorem c5_add_attrs_if_missing (d : Dom) (target : Handle) (incoming : List Attribute)
    (n : Node) (name : QualName) (existing : List Attribute) (tc : Option Handle) (mp : Bool)
    (hn : aget d.arena target = some n)
    (hd : n.data = NodeData.element name existing tc mp) :
    ∃ d2, add_attrs_if_missing d target incoming = Except.ok d2 ∧
      (∃ na, dataAt d2.arena target = some (NodeData.element name na tc mp) ∧
        na.take existing.length = existing ∧
        na.drop existing.length = incoming.filter
          (fun attr => decide (attr.name ∉ existing.map (fun e => e.name)))) ∧
      (∀ i, i ≠ target → aget d2.arena i = aget d.arena i) ∧
      d2.document = d.document ∧ d2.errors = d.errors := by
  have heq : add_attrs_if_missing d target incoming =
      Except.ok { d with arena := aset d.arena target { n with data := NodeData.element name (existing ++ incoming.filter (fun attr => decide (attr.name ∉ existing.map (fun e => e.name)))) tc mp } } := by
    simp only [add_attrs_if_missing, hn, hd]
  refine ⟨_, heq, ⟨existing ++ incoming.filter (fun attr => decide (attr.name ∉ existing.map (fun e => e.name))), ?_, ?_, ?_⟩, ?_, rfl, rfl⟩
  · unfold dataAt
    rw [aget_aset (aget_lt hn)]
    simp
  · exact List.take_left existing _
  · exact List.drop_left existing _
  · intro i hi
    rw [aget_aset (aget_lt hn)]
    simp [hi]

/-- Witness for C5: on an element already having class="b", adding
[(class,"a")] leaves class="b" unchanged (the incoming attribute is
filtered out). -/
theorem c5_add_attrs_if_missing_witness :
    ∃ d2, add_attrs_if_missing
        (create_element mkDom qnDiv [{ name := qnClass, value := "b" }] flagsNone).1 1
        [{ name := qnClass, value := "a" }] = Except.ok d2 ∧
      (∃ na, dataAt d2.arena 1 =
          some (NodeData.element qnDiv na none false) ∧
        na.take 1 = [{ name := qnClass, value := "b" }] ∧
        na.drop 1 = [] ) := by
  obtain ⟨d2, h1, ⟨na, h2, h3, h4⟩, h5⟩ :=
    c5_add_attrs_if_missing
      (create_element mkDom qnDiv [{ name := qnClass, value := "b" }] flagsNone).1 1
      [{ name := qnClass, value := "a" }]
      (mkNode (NodeData.element qnDiv [{ name := qnClass, value := "b" }] none false))
      qnDiv [{ name := qnClass, value := "b" }] none false rfl rfl
  refine ⟨d2, h1, na, h2, h3, ?_⟩
  rw [show (1 : Nat) = ([{ name := qnClass, value := "b" }] : List Attribute).length from rfl, h4]
  decide

/-- C2: appending literal text to a parent merges the text into the parent's
last child's buffer, creating no new node, exactly when that last child is a
Text node; otherwise a fresh Text node holding the text is appended as the
parent's new last child. -/
theorem c2_append_text_coalescing (d : Dom) (p : Handle) (t : String) (pn : Node)
    (hp : aget d.arena p = some pn) :
    (∀ l ln s, pn.lastChild = some l → aget d.arena l = some ln →
      ln.data = NodeData.text s →
      append d p (NodeOrText.appendText t) =
        Except.ok { d with arena := aset d.arena l { ln with data := NodeData.text (s ++ t) } } ∧
      (aset d.arena l { ln with data := NodeData.text (s ++ t) }).length = d.arena.length) ∧
    (pn.lastChild = none →
      ∃ d2, append d p (NodeOrText.appendText t) = Except.ok d2 ∧
        d2.arena.length = d.arena.length + 1 ∧
        dataAt d2.arena d.arena.length = some (NodeData.text t) ∧
        firstOf d2.arena p = some d.arena.length ∧
        lastOf d2.arena p = some d.arena.length ∧
        parentOf d2.arena d.arena.length = some p ∧
        prevOf d2.arena d.arena.length = none ∧
        nextOf d2.arena d.arena.length = none) ∧
    (∀ l ln, pn.lastChild = some l → aget d.arena l = some ln →
      isTextData ln.data = false →
      ∃ d2, append d p (NodeOrText.appendText t) = Except.ok d2 ∧
        d2.arena.length = d.arena.length + 1 ∧
        dataAt d2.arena d.arena.length = some (NodeData.text t) ∧
        prevOf d2.arena d.arena.length = some l ∧
        parentOf d2.arena d.arena.length = some p ∧
        nextOf d2.arena l = some d.arena.length ∧
        lastOf d2.arena p = some d.arena.length) := by
  refine ⟨?_, ?_, ?_⟩
  · intro l ln s hl hln hd
    exact ⟨append_eq_merge hp hl hln hd, length_aset _ _ _⟩
  · intro hl
    rw [append_eq_new_text_nolast hp hl]
    obtain ⟨q1, q2, q3, q4, q5, q6, q7⟩ := append_child_fresh_no_last (NodeData.text t) hp hl
    exact ⟨_, rfl, q1, q2, q3, q4, q5, q6, q7⟩
  · intro l ln hl hln hnt
    rw [append_eq_new_text_last hp hl hln hnt]
    obtain ⟨q1, q2, q3, q4, q5, q6, q7⟩ := append_child_fresh_last (NodeData.text t) hp hl (aget_lt hln)
    exact ⟨_, rfl, q1, q2, q3, q4, q6, q7⟩

/-- The container after creating one element and appending text "a" to it:
arena [Document, Element(children=[2]), Text "a"]. -/
def c2dom : Dom :=
  okD (append (create_element mkDom qnDiv [] flagsNone).1 1 (NodeOrText.appendText "a")) mkDom

/-- The element record of `c2dom`. -/
def c2elemNode : Node :=
  { parent := none, prevSibling := none, nextSibling := none,
    firstChild := some 2, lastChild := some 2,
    data := NodeData.element qnDiv [] none false }

/-- The text record of `c2dom`. -/
def c2textNode : Node :=
  { parent := some 1, prevSibling := none, nextSibling := none,
    firstChild := none, lastChild := none, data := NodeData.text "a" }

/-- Witness for C2: appending "a" then "b" to the same parent yields exactly
one Text child with buffer "ab" — the second append merges, allocating no
node. -/
theorem c2_append_text_coalescing_witness :
    (append c2dom 1 (NodeOrText.appendText "b") =
      Except.ok { c2dom with arena := aset c2dom.arena 2 { c2textNode with data := NodeData.text ("a" ++ "b") } } ∧
     (aset c2dom.arena 2 { c2textNode with data := NodeData.text ("a" ++ "b") }).length =
        c2dom.arena.length) ∧
    dataAt (aset c2dom.arena 2 { c2textNode with data := NodeData.text ("a" ++ "b") }) 2 =
      some (NodeData.text "ab") ∧
    firstOf (aset c2dom.arena 2 { c2textNode with data := NodeData.text ("a" ++ "b") }) 1 = some 2 ∧
    lastOf (aset c2dom.arena 2 { c2textNode with data := NodeData.text ("a" ++ "b") }) 1 = some 2 :=
  ⟨(c2_append_text_coalescing c2dom 1 "b" c2elemNode rfl).1 2 c2textNode "a" rfl rfl rfl,
    rfl, rfl, rfl⟩

/-- C3: inserting literal text before a sibling that has a parent merges the
text into the node immediately preceding the sibling exactly when that node
is a Text node; otherwise (no preceding node, or preceding node not Text, or
the child is a detached node handle) a new node is created/spliced
immediately before the sibling. -/
theorem c3_append_before_sibling_coalescing (d : Dom) (s : Handle) (t : String) (sn : Node)
    (hs : aget d.arena s = some sn) (par : Handle) (hpar : sn.parent = some par) :
    (∀ pr prn s0, sn.prevSibling = some pr → aget d.arena pr = some prn →
      prn.data = NodeData.text s0 →
      append_before_sibling d s (NodeOrText.appendText t) =
        Except.ok { d with arena := aset d.arena pr { prn with data := NodeData.text (s0 ++ t) } } ∧
      (aset d.arena pr { prn with data := NodeData.text (s0 ++ t) }).length = d.arena.length) ∧
    (sn.prevSibling = none →
      ∃ d2, append_before_sibling d s (NodeOrText.appendText t) = Except.ok d2 ∧
        d2.arena.length = d.arena.length + 1 ∧
        dataAt d2.arena d.arena.length = some (NodeData.text t) ∧
        nextOf d2.arena d.arena.length = some s ∧
        prevOf d2.arena s = some d.arena.length ∧
        prevOf d2.arena d.arena.length = none ∧
        parentOf d2.arena d.arena.length = some par) ∧
    (∀ pr prn, sn.prevSibling = some pr → aget d.arena pr = some prn →
      isTextData prn.data = false →
      ∃ d2, append_before_sibling d s (NodeOrText.appendText t) = Except.ok d2 ∧
        d2.arena.length = d.arena.length + 1 ∧
        dataAt d2.arena d.arena.length = some (NodeData.text t) ∧
        nextOf d2.arena d.arena.length = some s ∧
        prevOf d2.arena s = some d.arena.length ∧
        prevOf d2.arena d.arena.length = some pr ∧
        nextOf d2.arena pr = some d.arena.length ∧
        parentOf d2.arena d.arena.length = some par) ∧
    (∀ c cn, aget d.arena c = some cn → fullyDetached cn → sn.prevSibling ≠ some c →
      ∃ d2, append_before_sibling d s (NodeOrText.appendNode c) = Except.ok d2 ∧
        d2.arena.length = d.arena.length ∧
        nextOf d2.arena c = some s ∧
        prevOf d2.arena s = some c ∧
        parentOf d2.arena c = some par ∧
        (∀ k, dataAt d2.arena k = dataAt d.arena k)) := by
  refine ⟨?_, ?_, ?_, ?_⟩
  · intro pr prn s0 hprev hpr hd
    exact ⟨abs_eq_merge hs hprev hpr hd, length_aset _ _ _⟩
  · intro hprev
    obtain ⟨a2, hok, q1, q2, q3, q4, q5, q6⟩ :=
      insert_before_fresh_noprev (NodeData.text t) hs hpar hprev
    rw [abs_eq_text_noprev hs hprev, hok]
    exact ⟨_, rfl, q1, q2, q3, q6, q4, q5⟩
  · intro pr prn hprev hpr hnt
    obtain ⟨a2, hok, q1, q2, q3, q4, q5, q6, q7⟩ :=
      insert_before_fresh_prev (NodeData.text t) hs hpar hprev (aget_lt hpr)
    rw [abs_eq_text_prev hs hprev hpr hnt, hok]
    exact ⟨_, rfl, q1, q2, q3, q6, q4, q7, q5⟩
  · intro c cn hc hdet hprc
    obtain ⟨a2, hok, q1, q2, q3, q4, q5⟩ :=
      insert_before_node_detached hs hpar hc hdet hprc
    rw [abs_eq_node hs, hok]
    exact ⟨_, rfl, q1, q2, q3, q4, q5⟩

/-- The container after creating an element, appending text "x", creating a
comment, and appending the comment: arena [Document, Element(children=[2,3]),
Text "x", Comment "c"]. -/
def c3dom : Dom :=
  okD (append (create_comment (okD (append (create_element mkDom qnDiv [] flagsNone).1 1
    (NodeOrText.appendText "x")) mkDom) "c").1 1 (NodeOrText.appendNode 3)) mkDom

/-- The comment record of `c3dom` (the insertion reference point). -/
def c3commentNode : Node :=
  { parent := some 1, prevSibling := some 2, nextSibling := none,
    firstChild := none, lastChild := none, data := NodeData.comment "c" }

/-- The text record of `c3dom` (the node preceding the insertion point). -/
def c3textNode : Node :=
  { parent := some 1, prevSibling := none, nextSibling := some 3,
    firstChild := none, lastChild := none, data := NodeData.text "x" }

/-- Witness for C3: with parent children [Text "x", Comment], inserting text
"y" before the comment merges into the preceding Text node, giving "xy" and
allocating no node. -/
theorem c3_append_before_sibling_coalescing_witness :
    append_before_sibling c3dom 3 (NodeOrText.appendText "y") =
      Except.ok { c3dom with arena := aset c3dom.arena 2 { c3textNode with data := NodeData.text ("x" ++ "y") } } ∧
    (aset c3dom.arena 2 { c3textNode with data := NodeData.text ("x" ++ "y") }).length =
      c3dom.arena.length ∧
    dataAt (aset c3dom.arena 2 { c3textNode with data := NodeData.text ("x" ++ "y") }) 2 =
      some (NodeData.text "xy") :=
  ⟨((c3_append_before_sibling_coalescing c3dom 3 "y" c3commentNode rfl 1 rfl).1
      2 c3textNode "x" rfl rfl rfl).1,
   ((c3_append_before_sibling_coalescing c3dom 3 "y" c3commentNode rfl 1 rfl).1
      2 c3textNode "x" rfl rfl rfl).2, rfl⟩

/-- Attribute class="a". -/
def attrClassA : Attribute := { name := qnClass, value := "a" }

/-- Attribute class="b". -/
def attrClassB : Attribute := { name := qnClass, value := "b" }

/-- The container after `add_attrs_if_missing` on a fresh attribute-less
element with the duplicate-name incoming list [class="a", class="b"]. -/
def c6dom : Dom :=
  okD (add_attrs_if_missing (create_element mkDom qnDiv [] flagsNone).1 1
    [attrClassA, attrClassB]) mkDom

/-- Counterexample for C6: the incoming-name filter is computed once against
the pre-existing names only, so an incoming list with a repeated qualified
name deposits both copies, and the element's attribute list is no longer
unique by qualified name. -/
theorem c6_attrs_nodup_counterexample :
    add_attrs_if_missing (create_element mkDom qnDiv [] flagsNone).1 1
        [attrClassA, attrClassB] = Except.ok c6dom ∧
    dataAt c6dom.arena 1 = some (NodeData.element qnDiv [attrClassA, attrClassB] none false) ∧
    ¬ (([attrClassA, attrClassB].map (fun a => a.name)).Nodup) := by
  refine ⟨rfl, rfl, ?_⟩
  decide

theorem dataAt_alloc_new (a : Arena) (nd : NodeData) :
    dataAt (alloc a nd).1 (alloc a nd).2 = some nd := by
  unfold dataAt
  rw [show (alloc a nd).2 = a.length from rfl, aget_alloc_new]
  rfl

/-- C6 (amended): an element's attribute list is unique by qualified name
after `create_element` whenever the supplied list is, and
`add_attrs_if_missing` preserves uniqueness whenever the incoming list is
itself unique by qualified name; incoming lists with repeated qualified
names absent from the element can deposit duplicates. -/
theorem c6_attrs_nodup_amended :
    (∀ (d : Dom) (nm : QualName) (ats : List Attribute) (fl : ElementFlags),
      (ats.map (fun a => a.name)).Nodup →
      ∃ tc, dataAt (create_element d nm ats fl).1.arena (create_element d nm ats fl).2 =
          some (NodeData.element nm ats tc fl.mathmlAIP) ∧
        ((attrsOf (NodeData.element nm ats tc fl.mathmlAIP)).map (fun a => a.name)).Nodup) ∧
    (∀ (d : Dom) (target : Handle) (incoming : List Attribute) (n : Node) (nm : QualName)
        (existing : List Attribute) (tc : Option Handle) (mp : Bool) (d2 : Dom),
      aget d.arena target = some n → n.data = NodeData.element nm existing tc mp →
      (existing.map (fun a => a.name)).Nodup → (incoming.map (fun a => a.name)).Nodup →
      add_attrs_if_missing d target incoming = Except.ok d2 →
      ∃ na, dataAt d2.arena target = some (NodeData.element nm na tc mp) ∧
        (na.map (fun a => a.name)).Nodup) := by
  constructor
  · intro d nm ats fl hnd
    by_cases hf : fl.template
    · refine ⟨some d.arena.length, ?_, by simpa [attrsOf] using hnd⟩
      simp only [create_element, hf, if_true]
      exact dataAt_alloc_new _ _
    · refine ⟨none, ?_, by simpa [attrsOf] using hnd⟩
      simp only [create_element, hf, if_false]
      exact dataAt_alloc_new _ _
  · intro d target incoming n nm existing tc mp d2 hn hd hnd1 hnd2 hok
    have heq : add_attrs_if_missing d target incoming =
        Except.ok { d with arena := aset d.arena target { n with data := NodeData.element nm (existing ++ incoming.filter (fun attr => decide (attr.name ∉ existing.map (fun e => e.name)))) tc mp } } := by
      simp only [add_attrs_if_missing, hn, hd]
    rw [heq] at hok
    simp only [Except.ok.injEq] at hok
    subst hok
    refine ⟨existing ++ incoming.filter
      (fun attr => decide (attr.name ∉ existing.map (fun e => e.name))), ?_, ?_⟩
    · unfold dataAt
      rw [aget_aset (aget_lt hn)]
      simp
    · rw [List.map_append]
      refine List.Nodup.append hnd1 ?_ ?_
      · exact List.Nodup.sublist (List.Sublist.map _ (List.filter_sublist incoming)) hnd2
      · intro x hx1 hx2
        obtain ⟨attr, hmem, hname⟩ := List.mem_map.mp hx2
        have := (List.mem_filter.mp hmem).2
        rw [decide_eq_true_eq] at this
        rw [hname] at this
        exact this hx1

/-- Witness for C6 (amended): adding [class="a"] to an element already
holding class="b" keeps the attribute list [class="b"], which is unique by
name. -/
theorem c6_attrs_nodup_amended_witness :
    ∃ na, dataAt (okD (add_attrs_if_missing
        (create_element mkDom qnDiv [attrClassB] flagsNone).1 1 [attrClassA]) mkDom).arena 1 =
      some (NodeData.element qnDiv na none false) ∧
      (na.map (fun a => a.name)).Nodup :=
  c6_attrs_nodup_amended.2
    (create_element mkDom qnDiv [attrClassB] flagsNone).1 1 [attrClassA]
    (mkNode (NodeData.element qnDiv [attrClassB] none false)) qnDiv [attrClassB] none false
    (okD (add_attrs_if_missing (create_element mkDom qnDiv [attrClassB] flagsNone).1 1
      [attrClassA]) mkDom)
    rfl rfl (by decide) (by decide) rfl

theorem aget_isSome_iff {a : Arena} {h : Handle} :
    (aget a h).isSome = true ↔ h < a.length := by
  constructor
  · intro H
    cases hah : aget a h with
    | none => rw [hah] at H; cases H
    | some n => exact aget_lt hah
  · intro H
    obtain ⟨n, hn⟩ := aget_isSome H
    rw [hn]
    rfl

theorem append_length_le {d : Dom} {p : Handle} {child : NodeOrText} {d2 : Dom}
    (hok : append d p child = Except.ok d2) : d.arena.length ≤ d2.arena.length := by
  cases hp : aget d.arena p with
  | none =>
    rw [append_eq_dead hp] at hok
    cases hok
  | some pn =>
    cases child with
    | appendText t =>
      cases hl : pn.lastChild with
      | none =>
        rw [append_eq_new_text_nolast hp hl] at hok
        simp only [Except.ok.injEq] at hok
        subst hok
        have h1 : (append_child (alloc d.arena (NodeData.text t)).1 p d.arena.length).length =
            d.arena.length + 1 := by
          rw [length_append_child, length_alloc]
        exact le_of_le_of_eq (Nat.le_succ _) h1.symm
      | some h =>
        cases hh : aget d.arena h with
        | none =>
          rw [append_eq_merge_dead hp hl hh] at hok
          cases hok
        | some hn =>
          by_cases htx : isTextData hn.data = true
          · obtain ⟨s, hds⟩ : ∃ s, hn.data = NodeData.text s := by
              cases hdd : hn.data <;> simp [hdd, isTextData] at htx ⊢
            rw [append_eq_merge hp hl hh hds] at hok
            simp only [Except.ok.injEq] at hok
            subst hok
            exact Nat.le_of_eq (length_aset _ _ _).symm
          · have htx' : isTextData hn.data = false := by
              cases hb : isTextData hn.data
              · rfl
              · exact absurd hb htx
            rw [append_eq_new_text_last hp hl hh htx'] at hok
            simp only [Except.ok.injEq] at hok
            subst hok
            have h1 : (append_child (alloc d.arena (NodeData.text t)).1 p d.arena.length).length =
                d.arena.length + 1 := by
              rw [length_append_child, length_alloc]
            exact le_of_le_of_eq (Nat.le_succ _) h1.symm
    | appendNode c =>
      rw [append_eq_node hp] at hok
      simp only [Except.ok.injEq] at hok
      subst hok
      exact Nat.le_of_eq (length_append_child _ _ _).symm

theorem abs_length_le {d : Dom} {s : Handle} {child : NodeOrText} {d2 : Dom}
    (hok : append_before_sibling d s child = Except.ok d2) :
    d.arena.length ≤ d2.arena.length := by
  cases hs : aget d.arena s with
  | none =>
    rw [abs_eq_dead hs] at hok
    cases hok
  | some sn =>
    cases child with
    | appendText t =>
      cases hprev : sn.prevSibling with
      | none =>
        rw [abs_eq_text_noprev hs hprev] at hok
        cases hib : insert_before (alloc d.arena (NodeData.text t)).1 s d.arena.length with
        | error e =>
          rw [hib] at hok
          cases hok
        | ok a2 =>
          rw [hib] at hok
          simp only [Except.map, Except.ok.injEq] at hok
          subst hok
          have h1 : a2.length = d.arena.length + 1 := by
            rw [length_insert_before hib, length_alloc]
          exact le_of_le_of_eq (Nat.le_succ _) h1.symm
      | some pr =>
        cases hpr : aget d.arena pr with
        | none =>
          rw [abs_eq_merge_dead hs hprev hpr] at hok
          cases hok
        | some prn =>
          by_cases htx : isTextData prn.data = true
          · obtain ⟨s0, hds⟩ : ∃ s0, prn.data = NodeData.text s0 := by
              cases hdd : prn.data <;> simp [hdd, isTextData] at htx ⊢
            rw [abs_eq_merge hs hprev hpr hds] at hok
            simp only [Except.ok.injEq] at hok
            subst hok
            exact Nat.le_of_eq (length_aset _ _ _).symm
          · have htx' : isTextData prn.data = false := by
              cases hb : isTextData prn.data
              · rfl
              · exact absurd hb htx
            rw [abs_eq_text_prev hs hprev hpr htx'] at hok
            cases hib : insert_before (alloc d.arena (NodeData.text t)).1 s d.arena.length with
            | error e =>
              rw [hib] at hok
              cases hok
            | ok a2 =>
              rw [hib] at hok
              simp only [Except.map, Except.ok.injEq] at hok
              subst hok
              have h1 : a2.length = d.arena.length + 1 := by
                rw [length_insert_before hib, length_alloc]
              exact le_of_le_of_eq (Nat.le_succ _) h1.symm
    | appendNode c =>
      rw [abs_eq_node hs] at hok
      cases hib : insert_before d.arena s c with
      | error e =>
        rw [hib] at hok
        cases hok
      | ok a2 =>
        rw [hib] at hok
        simp only [Except.map, Except.ok.injEq] at hok
        subst hok
        exact Nat.le_of_eq (length_insert_before hib).symm

theorem abopn_length_le {d : Dom} {e pe : Handle} {child : NodeOrText} {d2 : Dom}
    (hok : append_based_on_parent_node d e pe child = Except.ok d2) :
    d.arena.length ≤ d2.arena.length := by
  cases he : aget d.arena e with
  | none =>
    rw [abopn_eq_dead he] at hok
    cases hok
  | some en =>
    cases hpar : en.parent with
    | some q =>
      rw [abopn_eq_sibling he (by rw [hpar]; rfl)] at hok
      exact abs_length_le hok
    | none =>
      rw [abopn_eq_append he hpar] at hok
      exact append_length_le hok

theorem add_attrs_length_le {d : Dom} {target : Handle} {attrs : List Attribute} {d2 : Dom}
    (hok : add_attrs_if_missing d target attrs = Except.ok d2) :
    d.arena.length ≤ d2.arena.length := by
  cases hn : aget d.arena target with
  | none =>
    simp only [add_attrs_if_missing, hn] at hok
    cases hok
  | some n =>
    cases hd : n.data <;> simp only [add_attrs_if_missing, hn, hd] at hok <;>
      first
        | (simp only [Except.ok.injEq] at hok
           subst hok
           exact Nat.le_of_eq (length_aset _ _ _).symm)
        | cases hok

/-- C9: no operation ever frees an arena slot: every valid handle (in
particular every handle returned by a creation operation) still resolves
after each further operation, including after `remove_from_parent`; and
every creation operation returns a handle valid in its output container. -/
theorem c9_handles_remain_valid (d : Dom) (h : Handle)
    (hv : (aget d.arena h).isSome = true) :
    (∀ name attrs flags,
      (aget (create_element d name attrs flags).1.arena h).isSome = true ∧
      (aget (create_element d name attrs flags).1.arena
        (create_element d name attrs flags).2).isSome = true) ∧
    (∀ text, (aget (create_comment d text).1.arena h).isSome = true ∧
      (aget (create_comment d text).1.arena (create_comment d text).2).isSome = true) ∧
    (∀ target data, (aget (create_pi d target data).1.arena h).isSome = true ∧
      (aget (create_pi d target data).1.arena (create_pi d target data).2).isSome = true) ∧
    (∀ p child d2, append d p child = Except.ok d2 →
      (aget d2.arena h).isSome = true) ∧
    (∀ s child d2, append_before_sibling d s child = Except.ok d2 →
      (aget d2.arena h).isSome = true) ∧
    (∀ e pe child d2, append_based_on_parent_node d e pe child = Except.ok d2 →
      (aget d2.arena h).isSome = true) ∧
    (∀ name publicId systemId,
      (aget (append_doctype_to_document d name publicId systemId).arena h).isSome = true) ∧
    (∀ target attrs d2, add_attrs_if_missing d target attrs = Except.ok d2 →
      (aget d2.arena h).isSome = true) ∧
    (∀ target, (aget (remove_from_parent d target).arena h).isSome = true) ∧
    (∀ node newParent, (aget (reparent_children d node newParent).arena h).isSome = true) ∧
    (∀ msg, (aget (parse_error d msg).arena h).isSome = true) ∧
    (∀ mode, (aget (set_quirks_mode d mode).arena h).isSome = true) ∧
    (aget (finish d).arena h).isSome = true := by
  have hlt : h < d.arena.length := aget_isSome_iff.mp hv
  refine ⟨?_, ?_, ?_, ?_, ?_, ?_, ?_, ?_, ?_, ?_, ?_, ?_, ?_⟩
  · intro name attrs flags
    constructor
    · rw [aget_isSome_iff]
      unfold create_element
      by_cases hf : flags.template <;>
        simp only [hf, if_true, if_false] <;>
        rw [length_alloc] <;>
        first
          | (rw [length_alloc]; exact Nat.lt_succ_of_lt (Nat.lt_succ_of_lt hlt))
          | exact Nat.lt_succ_of_lt hlt
    · rw [aget_isSome_iff]
      unfold create_element
      by_cases hf : flags.template <;>
        simp only [hf, if_true, if_false] <;>
        rw [length_alloc] <;>
        exact Nat.lt_succ_self _
  · intro text
    constructor
    · rw [aget_isSome_iff, show (create_comment d text).1.arena = (alloc d.arena (NodeData.comment text)).1 from rfl, length_alloc]
      exact Nat.lt_succ_of_lt hlt
    · rw [aget_isSome_iff, show (create_comment d text).1.arena = (alloc d.arena (NodeData.comment text)).1 from rfl, length_alloc]
      exact Nat.lt_succ_self _
  · intro target data
    constructor
    · rw [aget_isSome_iff, show (create_pi d target data).1.arena = (alloc d.arena (NodeData.processingInstruction target data)).1 from rfl, length_alloc]
      exact Nat.lt_succ_of_lt hlt
    · rw [aget_isSome_iff, show (create_pi d target data).1.arena = (alloc d.arena (NodeData.processingInstruction target data)).1 from rfl, length_alloc]
      exact Nat.lt_succ_self _
  · intro p child d2 hok
    rw [aget_isSome_iff]
    exact Nat.lt_of_lt_of_le hlt (append_length_le hok)
  · intro s child d2 hok
    rw [aget_isSome_iff]
    exact Nat.lt_of_lt_of_le hlt (abs_length_le hok)
  · intro e pe child d2 hok
    rw [aget_isSome_iff]
    exact Nat.lt_of_lt_of_le hlt (abopn_length_le hok)
  · intro name publicId systemId
    rw [aget_isSome_iff,
      show (append_doctype_to_document d name publicId systemId).arena =
        append_child (alloc d.arena (NodeData.doctype name publicId systemId)).1 d.document
          (alloc d.arena (NodeData.doctype name publicId systemId)).2 from rfl,
      length_append_child, length_alloc]
    exact Nat.lt_succ_of_lt hlt
  · intro target attrs d2 hok
    rw [aget_isSome_iff]
    exact Nat.lt_of_lt_of_le hlt (add_attrs_length_le hok)
  · intro target
    rw [aget_isSome_iff,
      show (remove_from_parent d target).arena = detach d.arena target from rfl, length_detach]
    exact hlt
  · intro node newParent
    rw [aget_isSome_iff,
      show (reparent_children d node newParent).arena =
        reparent_loop d.arena newParent ((aget d.arena node).bind Node.firstChild)
          (d.arena.length + 1) from rfl,
      length_reparent_loop]
    exact hlt
  · intro msg
    exact hv
  · intro mode
    exact hv
  · exact hv

/-- Witness for C9: the handle of a freshly created comment still resolves
after it is appended to the root and then detached again. -/
theorem c9_handles_remain_valid_witness :
    (aget (remove_from_parent (okD (append (create_comment mkDom "c").1 0
      (NodeOrText.appendNode 1)) mkDom) 1).arena 1).isSome = true :=
  (c9_handles_remain_valid (okD (append (create_comment mkDom "c").1 0
      (NodeOrText.appendNode 1)) mkDom) 1 rfl).2.2.2.2.2.2.2.2.1 1

theorem WFP_of_arenaWF {a : Arena} (H : arenaWF a = true) : WFP a := by
  intro i n hi
  exact List.all_eq_true.mp H n (List.getElem?_mem hi)

/-- Traversal from a handle inside the original arena never escapes into
freshly appended slots: all links of original nodes stay in range. -/
theorem Reaches_bounded {a : Arena} {ext : List Node} {r j : Handle}
    (hWF : WFP a) (hr : r < a.length) (h : Reaches (a ++ ext) r j) : j < a.length := by
  induction h with
  | refl => exact hr
  | child h1 h2 h3 ih =>
    rw [aget_append_lt ih] at h2
    exact linkOk_some (h3 ▸ (nodeWF_parts (hWF _ _ h2)).2.2.2.1)
  | sibling h1 h2 h3 ih =>
    rw [aget_append_lt ih] at h2
    exact linkOk_some (h3 ▸ (nodeWF_parts (hWF _ _ h2)).2.2.1)

/-- C8: `create_element` allocates and records a template-contents
Document-kind node if and only if the flags mark the element a template; the
returned element and the contents node are unattached (no parent), the
recorded handle is returned by `get_template_contents`, and neither node is
reachable from the document root via child/sibling traversal. -/
theorem c8_template_isolation (d : Dom) (name : QualName) (attrs : List Attribute)
    (flags : ElementFlags) (hwf : arenaWF d.arena = true)
    (hdoc : d.document < d.arena.length) :
    (create_element d name attrs flags).1.document = d.document ∧
    (flags.template = true →
      (create_element d name attrs flags).2 = d.arena.length + 1 ∧
      aget (create_element d name attrs flags).1.arena d.arena.length =
        some (mkNode NodeData.document) ∧
      dataAt (create_element d name attrs flags).1.arena (d.arena.length + 1) =
        some (NodeData.element name attrs (some d.arena.length) flags.mathmlAIP) ∧
      parentOf (create_element d name attrs flags).1.arena (d.arena.length + 1) = none ∧
      get_template_contents (create_element d name attrs flags).1 (d.arena.length + 1) =
        Except.ok d.arena.length ∧
      ¬ Reaches (create_element d name attrs flags).1.arena d.document d.arena.length ∧
      ¬ Reaches (create_element d name attrs flags).1.arena d.document (d.arena.length + 1)) ∧
    (flags.template = false →
      (create_element d name attrs flags).2 = d.arena.length ∧
      (create_element d name attrs flags).1.arena.length = d.arena.length + 1 ∧
      dataAt (create_element d name attrs flags).1.arena d.arena.length =
        some (NodeData.element name attrs none flags.mathmlAIP) ∧
      parentOf (create_element d name attrs flags).1.arena d.arena.length = none ∧
      ¬ Reaches (create_element d name attrs flags).1.arena d.document d.arena.length) := by
  refine ⟨?_, ?_, ?_⟩
  · unfold create_element
    by_cases hf : flags.template <;> simp [hf]
  · intro hf
    have hassoc : (create_element d name attrs flags).1.arena =
        d.arena ++ [mkNode NodeData.document,
          mkNode (NodeData.element name attrs (some d.arena.length) flags.mathmlAIP)] := by
      simp [create_element, hf, alloc]
    have hgetT : aget (create_element d name attrs flags).1.arena d.arena.length =
        some (mkNode NodeData.document) := by
      rw [hassoc, show (d.arena ++ [mkNode NodeData.document,
        mkNode (NodeData.element name attrs (some d.arena.length) flags.mathmlAIP)]) =
        (d.arena ++ [mkNode NodeData.document]) ++
          [mkNode (NodeData.element name attrs (some d.arena.length) flags.mathmlAIP)] from by
            rw [List.append_assoc]; rfl]
      rw [aget_append_lt (by simp)]
      exact aget_append_len _ _
    have hgetE : aget (create_element d name attrs flags).1.arena (d.arena.length + 1) =
        some (mkNode (NodeData.element name attrs (some d.arena.length) flags.mathmlAIP)) := by
      rw [hassoc, show (d.arena ++ [mkNode NodeData.document,
        mkNode (NodeData.element name attrs (some d.arena.length) flags.mathmlAIP)]) =
        (d.arena ++ [mkNode NodeData.document]) ++
          [mkNode (NodeData.element name attrs (some d.arena.length) flags.mathmlAIP)] from by
            rw [List.append_assoc]; rfl]
      have := aget_append_len (d.arena ++ [mkNode NodeData.document])
        (mkNode (NodeData.element name attrs (some d.arena.length) flags.mathmlAIP))
      rwa [show (d.arena ++ [mkNode NodeData.document]).length = d.arena.length + 1 from by simp]
        at this
    refine ⟨?_, hgetT, ?_, ?_, ?_, ?_, ?_⟩
    · simp [create_element, hf, alloc]
    · unfold dataAt
      rw [hgetE]
      rfl
    · unfold parentOf
      rw [hgetE]
      rfl
    · simp only [get_template_contents, get_node, hgetE]
      rfl
    · intro h
      rw [hassoc] at h
      exact Nat.lt_irrefl _ (Reaches_bounded (WFP_of_arenaWF hwf) hdoc h)
    · intro h
      rw [hassoc] at h
      have := Reaches_bounded (WFP_of_arenaWF hwf) hdoc h
      exact absurd this (Nat.not_lt.mpr (Nat.le_succ _))
  · intro hf
    have hassoc : (create_element d name attrs flags).1.arena =
        d.arena ++ [mkNode (NodeData.element name attrs none flags.mathmlAIP)] := by
      simp [create_element, hf, alloc]
    have hgetE : aget (create_element d name attrs flags).1.arena d.arena.length =
        some (mkNode (NodeData.element name attrs none flags.mathmlAIP)) := by
      rw [hassoc]
      exact aget_append_len _ _
    refine ⟨?_, ?_, ?_, ?_, ?_⟩
    · simp [create_element, hf, alloc]
    · rw [hassoc]
      simp
    · unfold dataAt
      rw [hgetE]
      rfl
    · unfold parentOf
      rw [hgetE]
      rfl
    · intro h
      rw [hassoc] at h
      exact Nat.lt_irrefl _ (Reaches_bounded (WFP_of_arenaWF hwf) hdoc h)

/-- Witness for C8: creating a template element in a fresh container records
an isolated Document node at handle 1 (the element is handle 2), and neither
is reachable from the root. -/
theorem c8_template_isolation_witness :
    (create_element mkDom qnDiv [] flagsTemplate).2 = 2 ∧
    get_template_contents (create_element mkDom qnDiv [] flagsTemplate).1 2 = Except.ok 1 ∧
    parentOf (create_element mkDom qnDiv [] flagsTemplate).1.arena 2 = none ∧
    ¬ Reaches (create_element mkDom qnDiv [] flagsTemplate).1.arena mkDom.document 1 ∧
    ¬ Reaches (create_element mkDom qnDiv [] flagsTemplate).1.arena mkDom.document 2 := by
  obtain ⟨w1, w2, w3⟩ := c8_template_isolation mkDom qnDiv [] flagsTemplate (by decide) (by decide)
  obtain ⟨t1, t2, t3, t4, t5, t6, t7⟩ := w2 rfl
  exact ⟨t1, t5, t4, t6, t7⟩

/-- Container with element 1 holding children [3, 4] (comments "x" and "y")
and element 2 childless, built through the sink operations. -/
def c1pre : Dom :=
  okD (append (okD (append (create_comment (create_comment (create_element
    (create_element mkDom qnDiv [] flagsNone).1 qnDiv [] flagsNone).1 "x").1 "y").1 1
    (NodeOrText.appendNode 3)) mkDom) 1 (NodeOrText.appendNode 4)) mkDom

/-- The container after `reparent_children(1, 2)` on `c1pre`. -/
def c1dom : Dom := reparent_children c1pre 1 2

/-- C1 (evaluation at the failing input): with node 1 having the ordered
child list [3, 4], `reparent_children(1, 2)` transfers only the first child:
node 2 ends with exactly [3], while node 4 is still a child of node 1 — the
loop reads the moved child's next-sibling pointer after relocating it, which
is already cleared. -/
theorem c1_reparent_children_failing_input :
    firstOf c1pre.arena 1 = some 3 ∧
    lastOf c1pre.arena 1 = some 4 ∧
    nextOf c1pre.arena 3 = some 4 ∧
    parentOf c1pre.arena 3 = some 1 ∧
    parentOf c1pre.arena 4 = some 1 ∧
    firstOf c1dom.arena 1 = some 4 ∧
    lastOf c1dom.arena 1 = some 4 ∧
    firstOf c1dom.arena 2 = some 3 ∧
    lastOf c1dom.arena 2 = some 3 ∧
    nextOf c1dom.arena 3 = none ∧
    parentOf c1dom.arena 3 = some 2 ∧
    parentOf c1dom.arena 4 = some 1 := by
  decide

/-- Container with element 1 holding Text "a" (node 4) and element 2 holding
Text "b" (node 3), built through the sink operations. -/
def c7pre : Dom :=
  okD (append (okD (append (create_element (create_element mkDom qnDiv [] flagsNone).1
    qnDiv [] flagsNone).1 2 (NodeOrText.appendText "b")) mkDom) 1
    (NodeOrText.appendText "a")) mkDom

/-- The container after the sink operation `reparent_children(2, 1)` on
`c7pre`: the Text child of 2 is appended right after the Text child of 1. -/
def c7dom : Dom := reparent_children c7pre 2 1

theorem adjTextPairAt_not_noAdjacentText {a : Arena} {i : Handle}
    (H : adjTextPairAt a i = true) : ¬ noAdjacentText a := by
  intro hadj
  unfold adjTextPairAt at H
  cases hai : aget a i with
  | none => rw [hai] at H; cases H
  | some n =>
    rw [hai] at H
    simp only [Bool.and_eq_true] at H
    obtain ⟨ht, H2⟩ := H
    cases hnx : n.nextSibling with
    | none => rw [hnx] at H2; cases H2
    | some j =>
      rw [hnx] at H2
      refine hadj i j ?_ ?_ H2
      · unfold nextOf
        rw [hai]
        show n.nextSibling = some j
        exact hnx
      · unfold textAt
        rw [hai]
        show isTextData n.data = true
        exact ht

/-- Counterexample for C7: a sequence of sink operations ending in
`reparent_children` (with only element handles ever passed by the caller)
leaves the Text nodes 4 and 3 as adjacent siblings under element 1, so the
coalescing invariant does not hold after arbitrary operation sequences. -/
theorem c7_no_adjacent_text_counterexample :
    adjTextPairAt c7dom.arena 4 = true ∧ ¬ noAdjacentText c7dom.arena := by
  have h : adjTextPairAt c7dom.arena 4 = true := by decide
  exact ⟨h, adjTextPairAt_not_noAdjacentText h⟩

/-- C7 (amended): no two adjacent siblings are both Text nodes after any
sequence of sink operations from a fresh container that avoids
`remove_from_parent` and `reparent_children`, passes only non-Text, fully
detached nodes as node-handle children, and only non-Text nodes as
sibling/element reference points. -/
theorem c7_no_adjacent_text_amended (d : Dom) (h : Reachable d) :
    noAdjacentText d.arena := (Inv_Reachable h).2

/-- Witness for C7 (amended): the invariant holds concretely after creating
an element and appending text to it. -/
theorem c7_no_adjacent_text_amended_witness :
    noAdjacentText (okD (append (create_element mkDom qnDiv [] flagsNone).1 1
      (NodeOrText.appendText "a")) mkDom).arena := by
  apply c7_no_adjacent_text_amended
  exact Reachable.append (create_element mkDom qnDiv [] flagsNone).1 1
    (NodeOrText.appendText "a") _
    (Reachable.create_element mkDom qnDiv [] flagsNone Reachable.base) trivial rfl

/-- C10: for a valid handle, `get_template_contents` fails with the explicit
`NotATemplate` error exactly when the target is not an element or records no
template contents; otherwise it returns exactly the recorded handle. -/
theorem c10_get_template_contents (d : Dom) (target : Handle) (n : Node)
    (hn : aget d.arena target = some n) :
    (get_template_contents d target = Except.error DomError.notATemplate ↔
      (isElementData n.data = false ∨ templateContentsOf n.data = none)) ∧
    (∀ h, templateContentsOf n.data = some h →
      get_template_contents d target = Except.ok h) := by
  constructor
  · cases hd : n.data <;>
      simp [get_template_contents, get_node, hn, hd, isElementData, templateContentsOf]
    case element name attrs tc mp =>
      cases tc <;> simp
  · intro h hh
    cases hd : n.data <;> rw [hd] at hh <;> simp [templateContentsOf] at hh
    case element name attrs tc mp =>
      subst hh
      simp [get_template_contents, get_node, hn, hd]

/-- Witness for C10: a freshly created template element yields its recorded
contents handle; the root Document (not an element) fails with NotATemplate. -/
theorem c10_get_template_contents_witness :
    get_template_contents (create_element mkDom qnDiv [] flagsTemplate).1 2 =
      Except.ok 1 ∧
    get_template_contents (create_element mkDom qnDiv [] flagsTemplate).1 0 =
      Except.error DomError.notATemplate :=
  ⟨(c10_get_template_contents (create_element mkDom qnDiv [] flagsTemplate).1 2
      (mkNode (NodeData.element qnDiv [] (some 1) false)) rfl).2 1 rfl,
   (c10_get_template_contents (create_element mkDom qnDiv [] flagsTemplate).1 0
      (mkNode NodeData.document) rfl).1.mpr (Or.inl rfl)⟩

end GAD
